import Mathlib

/-!
# agentrules: the markdown aggregation pipeline of `main.go`

A shallow embedding of `main.go` (the rule generator of sprucehealth/agentrules)
and theorems about the files it writes.

## Conventions

* A Go `[]byte` or `string` is a `List Nat`; every element stands for one byte.
  The functions below only ever compare bytes with ASCII constants, so no
  theorem depends on the elements being below 256.
* `str` turns an ASCII literal into its bytes.
* The operating system is a record of functions (`Env`): what `filepath.Glob`
  returns for a directory, what reading a file delivers, whether a directory can
  be created and whether a file can be written.
* A generator returns an `Outcome`: the files it wrote, in order, and whether it
  returned a non-nil error.
* `bufio.Scanner` with the default `ScanLines` split and the default 64 KiB
  token limit is modelled by `scanEvents`: the results of the successive calls of
  `scanner.Scan()` on a file.
* The three concatenation generators are embedded one by one, each with its own
  copy of the line loop, as in the source.
* The progress lines printed to standard output are not modelled.
* For the whole run (`generateRules`) the file system is a map from paths to
  contents (`FileSystem`), and what a run does not change is a `Host`: the
  result of `findGitRoot` and which calls the operating system lets succeed.
-/

namespace AgentRules

/-! ## Bytes and strings -/

/-- A Go byte slice or string: one list element per byte. -/
abbrev Bytes := List Nat

/-- The bytes of an ASCII literal. -/
def str (s : String) : Bytes := s.toList.map Char.toNat

/-- Go `strings.HasPrefix(s, p)`: `s` begins with the bytes `p`. -/
def hasPrefix : Bytes → Bytes → Bool
  | _, [] => true
  | [], _ :: _ => false
  | a :: s, b :: p => a == b && hasPrefix s p

/-- Go `strings.HasSuffix(s, p)`: `s` ends with the bytes `p`. -/
def hasSuffix (s p : Bytes) : Bool := hasPrefix s.reverse p.reverse

/-- Go `strings.TrimSuffix(s, p)`: `s` without the trailing `p`, when it ends with it. -/
def trimSuffix (s p : Bytes) : Bytes :=
  if hasSuffix s p then s.take (s.length - p.length) else s

/-- Go string comparison `a <= b`: bytewise lexicographic order. -/
def strLE : Bytes → Bytes → Bool
  | [], _ => true
  | _ :: _, [] => false
  | a :: s, b :: t => a < b || (a == b && strLE s t)

/-- The result of `sort.Strings`: the strings in ascending order. The order is
total and equal strings are indistinguishable, so every sorting algorithm
returns this list. -/
def sortStrings (l : List Bytes) : List Bytes :=
  l.insertionSort (fun a b => strLE a b = true)

/-- `ensureTrailingNewline` (main.go:95): append `'\n'` when the content is
empty or its last byte is not `'\n'`. -/
def ensureTrailingNewline (content : Bytes) : Bytes :=
  if content.length = 0 ∨ content.getLast? ≠ some 10 then content ++ [10] else content

/-! ## `bufio.Scanner` -/

/-- The `'\n'`-delimited segments of a file. A final segment that is empty
(the file is empty or ends with `'\n'`) is not a line. -/
def splitLines : Bytes → List Bytes
  | [] => []
  | b :: rest =>
    if b = 10 then [] :: splitLines rest
    else match splitLines rest with
      | [] => [[b]]
      | l :: ls => (b :: l) :: ls

/-- The helper `dropCR` of `bufio.ScanLines`: drop one trailing `'\r'`. -/
def dropCR (line : Bytes) : Bytes :=
  if line.getLast? = some 13 then line.dropLast else line

/-- The constant `bufio.MaxScanTokenSize`: the size of the largest buffer a
default `bufio.Scanner` allocates. -/
def maxScanTokenSize : Nat := 65536

/-- The results of the successive calls of `scanner.Scan()` over the raw lines
of a file: `some line` when the call returns true and `scanner.Text()` is
`line`, `none` when it returns false. After the end of the list every call
returns false.

A raw line shorter than the token limit is delivered without its trailing
`'\r'`. A raw line that fills the buffer makes `Scan` return false
(`ErrTooLong`); the scanner's buffer then still holds the first
`maxScanTokenSize` bytes of that line, and one further call delivers them as a
final token; the remainder of the file is never read. -/
def scanEvents : List Bytes → List (Option Bytes)
  | [] => []
  | l :: ls =>
    if l.length < maxScanTokenSize then some (dropCR l) :: scanEvents ls
    else [none, some (dropCR (l.take maxScanTokenSize))]

/-- The calls of `scanner.Scan()` on a file with the given content. -/
def scanFile (data : Bytes) : List (Option Bytes) := scanEvents (splitLines data)

/-- The lines a plain `for scanner.Scan()` loop sees: the tokens delivered
before the first call that returns false. -/
def scanLines (data : Bytes) : List Bytes :=
  ((scanFile data).takeWhile Option.isSome).filterMap id

/-! ## The per-file line loop of the concatenation generators -/

/-- Where control stands in the line loop (main.go:178-197): `first` while
`firstLine` is true, `yaml` inside the inner loop that skips frontmatter,
`body` once `firstLine` is false. -/
inductive Mode where
  | first
  | yaml
  | body
  deriving DecidableEq, Repr

/-- The text the line loop of `generateWindsurfRules` (main.go:178-197) appends
to `output`, given the results of the calls of `scanner.Scan()`. -/
def windsurfLoop : Mode → List (Option Bytes) → Bytes
  | _, [] => []
  | .yaml, none :: evs => windsurfLoop .body evs
  | .yaml, some line :: evs =>
    if hasPrefix line (str "---") then windsurfLoop .body evs else windsurfLoop .yaml evs
  | .first, none :: _ => []
  | .first, some line :: evs =>
    if hasPrefix line (str "# ") then windsurfLoop .body evs
    else if hasPrefix line (str "---") then windsurfLoop .yaml evs
    else line ++ str "\n" ++ windsurfLoop .body evs
  | .body, none :: _ => []
  | .body, some line :: evs => line ++ str "\n" ++ windsurfLoop .body evs

/-- The text the line loop of `generateClaudeRules` (main.go:240-259) appends to
`output`, given the results of the calls of `scanner.Scan()`. -/
def claudeLoop : Mode → List (Option Bytes) → Bytes
  | _, [] => []
  | .yaml, none :: evs => claudeLoop .body evs
  | .yaml, some line :: evs =>
    if hasPrefix line (str "---") then claudeLoop .body evs else claudeLoop .yaml evs
  | .first, none :: _ => []
  | .first, some line :: evs =>
    if hasPrefix line (str "# ") then claudeLoop .body evs
    else if hasPrefix line (str "---") then claudeLoop .yaml evs
    else line ++ str "\n" ++ claudeLoop .body evs
  | .body, none :: _ => []
  | .body, some line :: evs => line ++ str "\n" ++ claudeLoop .body evs

/-- The text the line loop of `generateAgentRules` (main.go:301-320) appends to
`output`, given the results of the calls of `scanner.Scan()`. -/
def agentLoop : Mode → List (Option Bytes) → Bytes
  | _, [] => []
  | .yaml, none :: evs => agentLoop .body evs
  | .yaml, some line :: evs =>
    if hasPrefix line (str "---") then agentLoop .body evs else agentLoop .yaml evs
  | .first, none :: _ => []
  | .first, some line :: evs =>
    if hasPrefix line (str "# ") then agentLoop .body evs
    else if hasPrefix line (str "---") then agentLoop .yaml evs
    else line ++ str "\n" ++ agentLoop .body evs
  | .body, none :: _ => []
  | .body, some line :: evs => line ++ str "\n" ++ agentLoop .body evs

/-! ## The operating system and the generators -/

/-- The operating system as the generators see it. -/
structure Env where
  /-- The result of `filepath.Glob(filepath.Join(srcDir, "*.md"))`; `none` when
  it returns an error. -/
  glob : Bytes → Option (List Bytes)
  /-- The content `os.ReadFile(file)` returns, which is also what the reads of
  a scanner over `os.Open(file)` deliver; `none` when the file cannot be
  opened. -/
  readFile : Bytes → Option Bytes
  /-- Whether `os.MkdirAll(dir, 0755)` succeeds. -/
  mkdirAll : Bytes → Bool
  /-- Whether `os.WriteFile(file, _, 0600)` succeeds. -/
  writeFile : Bytes → Bool
  /-- The path `filepath.Join(dir, name)`. -/
  join : Bytes → Bytes → Bytes

/-- What a generator did: the files it wrote (path and content, in order) and
whether it returned a non-nil error. -/
structure Outcome where
  written : List (Bytes × Bytes)
  failed : Bool
  deriving DecidableEq, Repr

/-- Go `filepath.Base` on a Unix path: the last element of the path, trailing
slashes removed; `.` for the empty path and `/` for a path of slashes only. -/
def filepathBase (path : Bytes) : Bytes :=
  if path = [] then str "."
  else
    let p := (path.reverse.dropWhile (· == 47)).reverse
    let last := (p.reverse.takeWhile (· != 47)).reverse
    if last = [] then str "/" else last

/-- The default YAML header `generateCursorRules` writes in front of a source
without frontmatter (main.go:133-137). The sixth character of the description
is U+2011, three bytes in UTF-8. -/
def cursorHeader (base : Bytes) : Bytes :=
  str "---\n"
    ++ (str "description: Auto" ++ [226, 128, 145] ++ str "generated from " ++ base ++ str ".md\n")
    ++ str "globs: [\"**\"]\n"
    ++ str "alwaysApply: false\n"
    ++ str "---\n"

/-- The string built in `output` for one source file of `generateCursorRules`
(main.go:125-139). -/
def cursorOutput (base content : Bytes) : Bytes :=
  if hasPrefix content (str "---") then content else cursorHeader base ++ content

/-- The loop over the sorted files of `generateCursorRules` (main.go:116-145);
`written` holds the files written so far. -/
def cursorLoop (env : Env) (dstDir : Bytes) : List Bytes → List (Bytes × Bytes) → Outcome
  | [], written => ⟨written, false⟩
  | file :: files, written =>
    let base := trimSuffix (filepathBase file) (str ".md")
    let outFile := env.join dstDir (base ++ str ".gen.mdc")
    match env.readFile file with
    | none => ⟨written, true⟩
    | some content =>
      if env.writeFile outFile then
        cursorLoop env dstDir files
          (written ++ [(outFile, ensureTrailingNewline (cursorOutput base content))])
      else ⟨written, true⟩

/-- `generateCursorRules` (main.go:102-147). -/
def generateCursorRules (env : Env) (srcDir dstDir : Bytes) : Outcome :=
  if env.mkdirAll dstDir then
    match env.glob srcDir with
    | none => ⟨[], true⟩
    | some files => cursorLoop env dstDir (sortStrings files) []
  else ⟨[], true⟩

/-- `generateWindsurfRules` (main.go:149-209). A file that cannot be opened
contributes nothing, not even the separator. -/
def generateWindsurfRules (env : Env) (srcDirs : List Bytes) (windsurfFile : Bytes) : Outcome :=
  match srcDirs.foldlM (fun allFiles srcDir => (env.glob srcDir).map (allFiles ++ ·)) [] with
  | none => ⟨[], true⟩
  | some allFiles =>
    let output := (sortStrings allFiles).foldl
      (fun output file =>
        match env.readFile file with
        | none => output
        | some data => output ++ windsurfLoop .first (scanFile data) ++ str "\n---\n\n")
      (str "# .windsurfrules\n"
        ++ str "<!-- generated; DO NOT EDIT. Edit files in agentrules/shared. -->\n\n")
    if env.writeFile windsurfFile then
      ⟨[(windsurfFile, ensureTrailingNewline output)], false⟩
    else ⟨[], true⟩

/-- `generateClaudeRules` (main.go:211-271). -/
def generateClaudeRules (env : Env) (srcDirs : List Bytes) (claudeFile : Bytes) : Outcome :=
  match srcDirs.foldlM (fun allFiles srcDir => (env.glob srcDir).map (allFiles ++ ·)) [] with
  | none => ⟨[], true⟩
  | some allFiles =>
    let output := (sortStrings allFiles).foldl
      (fun output file =>
        match env.readFile file with
        | none => output
        | some data => output ++ claudeLoop .first (scanFile data) ++ str "\n---\n\n")
      (str "# CLAUDE.md\n"
        ++ str "<!-- generated; DO NOT EDIT. Edit files in agentrules/shared. -->\n\n")
    if env.writeFile claudeFile then
      ⟨[(claudeFile, ensureTrailingNewline output)], false⟩
    else ⟨[], true⟩

/-- `generateAgentRules` (main.go:273-332). -/
def generateAgentRules (env : Env) (srcDirs : List Bytes) (agentFile : Bytes) : Outcome :=
  match srcDirs.foldlM (fun allFiles srcDir => (env.glob srcDir).map (allFiles ++ ·)) [] with
  | none => ⟨[], true⟩
  | some allFiles =>
    let output := (sortStrings allFiles).foldl
      (fun output file =>
        match env.readFile file with
        | none => output
        | some data => output ++ agentLoop .first (scanFile data) ++ str "\n")
      (str "<!-- This is used by Codex to find instructions. -->\n")
    if env.writeFile agentFile then
      ⟨[(agentFile, ensureTrailingNewline output)], false⟩
    else ⟨[], true⟩

/-! ## Notions of the specification -/

/-- Whether a byte is ASCII white space (tab, line feed, vertical tab, form
feed, carriage return, space). -/
def isSpace (b : Nat) : Bool := (9 ≤ b && b ≤ 13) || b == 32

/-- The line with its leading and trailing white space removed. -/
def trimSpace (s : Bytes) : Bytes :=
  ((s.dropWhile isSpace).reverse.dropWhile isSpace).reverse

/-- Modelled from the spec: `isAgentrulesComment` is called by main_test.go and
is not defined in main.go. A well-formed sentinel comment is a line that, after
trimming surrounding white space, starts with `<!-- @agentrules:` and ends with
`-->`. -/
def isAgentrulesComment (line : Bytes) : Bool :=
  hasPrefix (trimSpace line) (str "<!-- @agentrules:") && hasSuffix (trimSpace line) (str "-->")

/-- A malformed sentinel: after trimming it starts with `<!-- @agentrules:` and
does not end with `-->`. -/
def isMalformedSentinel (line : Bytes) : Bool :=
  hasPrefix (trimSpace line) (str "<!-- @agentrules:") && !hasSuffix (trimSpace line) (str "-->")

/-- The first line of a document: the bytes before its first `'\n'`. -/
def firstLine (content : Bytes) : Bytes := content.takeWhile (· != 10)

/-- A document begins with a YAML block, in the words of the specification,
when its first line is exactly `---`. -/
def beginsWithYamlBlock (content : Bytes) : Bool := firstLine content == str "---"

/-- Whether `needle` occurs in `s` as a contiguous run of bytes (Go
`strings.Contains`). -/
def containsBytes : Bytes → Bytes → Bool
  | [], needle => needle.isEmpty
  | a :: s, needle => hasPrefix (a :: s) needle || containsBytes s needle

/-! ## Concrete file systems -/

/-- A file system given by two tables: the matches of `*.md` in each directory
and the content of each file. Globbing an unlisted directory matches nothing,
a file that is not listed cannot be opened, every directory can be created and
every file written. -/
def tableEnv (dirs : List (Bytes × List Bytes)) (files : List (Bytes × Bytes)) : Env where
  glob := fun d => some ((dirs.lookup d).getD [])
  readFile := fun f => files.lookup f
  mkdirAll := fun _ => true
  writeFile := fun _ => true
  join := fun d n => d ++ str "/" ++ n

/-- The constant `agentrulesComment` of main_test.go:10. -/
def agentrulesComment : Bytes :=
  str ("<!-- @agentrules: If you are reading this as an AI coding agent, know that contents are "
    ++ "already included in your agent instructions. It is not necessary for you to read or "
    ++ "include this file in your context unless told to do so. -->")

/-- The content `cursorFrontmatter` of main_test.go:71: a source that begins
with frontmatter. -/
def cursorFrontmatter : Bytes :=
  str "---\ndescription: test\nglobs: [\"**\"]\nalwaysApply: true\n---\n"
    ++ agentrulesComment ++ str "\n\n## Cursor Rule\n\nCursor specific.\n"

/-- The repository `setupTestRepo` builds (main_test.go:45-89), rooted at `/r`. -/
def testRepo : Env :=
  tableEnv
    [(str "/r/agentrules/shared", [str "/r/agentrules/shared/01-shared.md"]),
     (str "/r/agentrules/cursor", [str "/r/agentrules/cursor/01-cursor.md"]),
     (str "/r/agentrules/windsurf", [str "/r/agentrules/windsurf/01-windsurf.md"]),
     (str "/r/agentrules/claude-code", [str "/r/agentrules/claude-code/01-claude.md"]),
     (str "/r/agentrules/chatgpt-codex", [str "/r/agentrules/chatgpt-codex/01-codex.md"]),
     (str "/r/agentrules/review-guidelines", [str "/r/agentrules/review-guidelines/01-review.md"])]
    [(str "/r/agentrules/shared/01-shared.md",
        agentrulesComment ++ str "\n\n## Shared Rule\n\nDo the thing.\n"),
     (str "/r/agentrules/cursor/01-cursor.md", cursorFrontmatter),
     (str "/r/agentrules/windsurf/01-windsurf.md",
        agentrulesComment ++ str "\n\n## Tool Rule\n\nDo the other thing.\n"),
     (str "/r/agentrules/claude-code/01-claude.md",
        agentrulesComment ++ str "\n\n## Tool Rule\n\nDo the other thing.\n"),
     (str "/r/agentrules/chatgpt-codex/01-codex.md",
        agentrulesComment ++ str "\n\n## Tool Rule\n\nDo the other thing.\n"),
     (str "/r/agentrules/review-guidelines/01-review.md",
        agentrulesComment ++ str "\n\n## Review Rule\n\nCheck this.\n")]

/-- Whether some `'\n'`-delimited line of a file is a well-formed sentinel comment. -/
def hasSentinelLine (content : Bytes) : Bool := (splitLines content).any isAgentrulesComment

/-- The sources of the end-to-end scenario of the specification: `shared/01.md`
with a heading and a body, `claude-code/02.md` with a sentinel comment and a
body. -/
def scenarioEnv : Env :=
  tableEnv
    [(str "shared", [str "shared/01.md"]), (str "claude-code", [str "claude-code/02.md"])]
    [(str "shared/01.md", str "# H\n\nBody shared.\n"),
     (str "claude-code/02.md", str "<!-- @agentrules: short -->\n\nBody tool.\n")]

/-- A directory `src` whose only source is `src/a.md` with the given content. -/
def oneFileEnv (content : Bytes) : Env :=
  tableEnv [(str "src", [str "src/a.md"])] [(str "src/a.md", content)]

/-- A file ends with exactly one `'\n'`: its last byte is `'\n'` and the byte
before it, if any, is not. -/
def endsWithOneNewline (content : Bytes) : Bool :=
  content.getLast? == some 10 && content.dropLast.getLast? != some 10

/-- The base name `generateCursorRules` derives from a source path (main.go:117). -/
def cursorBase (file : Bytes) : Bytes := trimSuffix (filepathBase file) (str ".md")

/-- The path `generateCursorRules` writes for a source path (main.go:118). -/
def cursorOutFile (env : Env) (dstDir file : Bytes) : Bytes :=
  env.join dstDir (cursorBase file ++ str ".gen.mdc")

/-- The text of a concatenated file, before the final newline is ensured, when
the files are visited in the given order: the banner, then for every file that
can be opened the text of its line loop followed by the separator. -/
def concatText (banner sep : Bytes) (loop : Mode → List (Option Bytes) → Bytes) (env : Env)
    (order : List Bytes) : Bytes :=
  banner ++ order.flatMap (fun file =>
    match env.readFile file with
    | none => []
    | some data => loop .first (scanFile data) ++ sep)

/-- The banner of `.windsurfrules` (main.go:165-166). -/
def windsurfBanner : Bytes :=
  str "# .windsurfrules\n"
    ++ str "<!-- generated; DO NOT EDIT. Edit files in agentrules/shared. -->\n\n"

/-- The banner of `CLAUDE.md` (main.go:227-228). -/
def claudeBanner : Bytes :=
  str "# CLAUDE.md\n"
    ++ str "<!-- generated; DO NOT EDIT. Edit files in agentrules/shared. -->\n\n"

/-- The banner of `AGENTS.md` (main.go:289). -/
def agentBanner : Bytes := str "<!-- This is used by Codex to find instructions. -->\n"

/-- The given lines, each followed by `'\n'`. -/
def emitLines (lines : List Bytes) : Bytes := lines.flatMap (fun l => l ++ str "\n")

/-- The number of lines the generators skip as a leading YAML block: none when
the first line does not start with `---`; otherwise the first line, the lines
after it that do not start with `---`, and the first later line that does. When
no later line starts with `---` the number exceeds the number of lines. -/
def yamlBlockLength : List Bytes → Nat
  | [] => 0
  | l :: ls =>
    if hasPrefix l (str "---") then
      1 + ((ls.takeWhile (fun x => !hasPrefix x (str "---"))).length + 1)
    else 0

/-- The number of leading lines the generators do not emit: the heading when
the first line starts with `# `, the leading YAML block otherwise. -/
def skipCount (lines : List Bytes) : Nat :=
  match lines with
  | [] => 0
  | l :: _ => if hasPrefix l (str "# ") then 1 else yamlBlockLength lines

/-- A document whose first line fills the scanner's buffer: `maxScanTokenSize`
bytes `a`, a newline, and the line `Body`. -/
def longLineDoc : Bytes := List.replicate maxScanTokenSize 97 ++ str "\nBody\n"

/-- A directory `src` whose glob lists `src/a.md`, a file that cannot be opened. -/
def unreadableEnv : Env := tableEnv [(str "src", [str "src/a.md"])] []

/-- A document that consists of a YAML block and a well-formed sentinel comment,
with no body. -/
def yamlSentinelDoc : Bytes := str "---\ntitle: x\n---\n<!-- @agentrules: short -->\n"

/-! ## The one routine of the specification -/

/-- The matches of `*.md` in the directories, one directory after the other;
`none` when a glob fails. -/
def collectFiles (env : Env) : List Bytes → Option (List Bytes)
  | [] => some []
  | srcDir :: rest =>
    match env.glob srcDir with
    | none => none
    | some files => (collectFiles env rest).map (files ++ ·)

/-- Every line up to the first failed call of `Scan`, each followed by `'\n'`. -/
def emitUntilFail : List (Option Bytes) → Bytes
  | some line :: evs => line ++ str "\n" ++ emitUntilFail evs
  | _ => []

/-- The calls of `Scan` that follow the end of the frontmatter: those after the
first line that starts with `---`, or after the first failed call. -/
def afterYamlBlock : List (Option Bytes) → List (Option Bytes)
  | [] => []
  | none :: evs => evs
  | some line :: evs => if hasPrefix line (str "---") then evs else afterYamlBlock evs

/-- The line-level transform the three variants share: drop a first line that
starts with `# `; else, when the first line starts with `---`, skip through the
line that closes the frontmatter; emit every other line followed by `'\n'`. -/
def lineTransform (data : Bytes) : Bytes :=
  match scanFile data with
  | some line :: evs =>
    if hasPrefix line (str "# ") then emitUntilFail evs
    else if hasPrefix line (str "---") then emitUntilFail (afterYamlBlock evs)
    else emitUntilFail (some line :: evs)
  | _ => []

/-- The concatenation routine of the specification, parameterised by banner,
separator and destination: collect the matches of the directories, sort them,
write the banner followed, for every file that can be opened, by its
transformed text and the separator, with a trailing newline ensured. -/
def concatenationRoutine (banner sep : Bytes) (env : Env) (srcDirs : List Bytes)
    (dst : Bytes) : Outcome :=
  match collectFiles env srcDirs with
  | none => ⟨[], true⟩
  | some allFiles =>
    if env.writeFile dst then
      ⟨[(dst, ensureTrailingNewline
          (banner ++ (sortStrings allFiles).flatMap (fun file =>
            match env.readFile file with
            | none => []
            | some data => lineTransform data ++ sep)))], false⟩
    else ⟨[], true⟩

/-- A document with unterminated frontmatter whose second and last line fills
the scanner's buffer: the line `---`, then `maxScanTokenSize` bytes `a`. -/
def longYamlDoc : Bytes := str "---\n" ++ List.replicate maxScanTokenSize 97

/-! ## The whole run: `generateRules` over a file system -/

/-- The file system as a map from paths to contents: an association list in
which the first entry of a path is the file at that path. -/
abbrev FileSystem := List (Bytes × Bytes)

/-- Whether a path is the directory `dir` or lies below it. -/
def isUnder (dir p : Bytes) : Bool := p == dir || hasPrefix p (dir ++ str "/")

/-- Whether a path matches the pattern `dir/*.md`: it is `dir/name` for a
`name` without a slash that ends with `.md`. -/
def isMdChild (dir p : Bytes) : Bool :=
  hasPrefix p (dir ++ str "/") &&
    (!(p.drop (dir.length + 1)).contains 47 && hasSuffix (p.drop (dir.length + 1)) (str ".md"))

/-- The result of `filepath.Glob(filepath.Join(dir, "*.md"))` for a directory
path without pattern characters: the matching paths, each once, in ascending
order. -/
def globMd (fs : FileSystem) (dir : Bytes) : List Bytes :=
  sortStrings ((fs.map Prod.fst).filter (isMdChild dir)).dedup

/-- The file system after `os.RemoveAll(dir)`. -/
def removeAll (fs : FileSystem) (dir : Bytes) : FileSystem :=
  fs.filter (fun e => !isUnder dir e.1)

/-- The file system after a sequence of `os.WriteFile` calls, each replacing the
file at its path. -/
def applyWrites (fs : FileSystem) (writes : List (Bytes × Bytes)) : FileSystem :=
  writes.foldl (fun s w => w :: s) fs

/-- What does not change during a run: the result of `findGitRoot` (`none` when
the working directory is in no repository; the root is written without a final
slash) and which calls the operating system lets succeed. -/
structure Host where
  findGitRoot : Option Bytes
  mkdirAll : Bytes → Bool
  removeAll : Bytes → Bool
  writeFile : Bytes → Bool
  canRead : Bytes → Bool

/-- The operating system a generator sees when it is called in a given state.
A generator reads only below `agentrules/` and writes only elsewhere, so what
it reads during the call is what the state holds at the call. -/
def envOf (host : Host) (fs : FileSystem) : Env where
  glob := fun dir => some (globMd fs dir)
  readFile := fun p => if host.canRead p then fs.lookup p else none
  mkdirAll := host.mkdirAll
  writeFile := host.writeFile
  join := fun d n => d ++ str "/" ++ n

/-- The constant `cursorWarning` of `addWarningFiles` (main.go:337-350). The
warning sign is U+26A0 U+FE0F, six bytes in UTF-8. -/
def cursorWarning : Bytes :=
  str "# Generated Files - Do Not Edit\n\n"
    ++ [226, 154, 160, 239, 184, 143]
    ++ str " **WARNING**: All files in this directory are automatically generated.\n\n"
    ++ str "**DO NOT EDIT** these files directly. Instead, edit the source files in:\n"
    ++ str "- `agentrules/shared/`\n\n"
    ++ str "To regenerate these files, run:\n"
    ++ str "```bash\ngo generate ./agentrules\n```\n\n"
    ++ str ("Any changes made directly to files in this directory will be lost when the rules "
      ++ "are regenerated.\n")

/-- `addWarningFiles` (main.go:334-357). -/
def addWarningFiles (env : Env) (cursorDst _claudeMD : Bytes) : Outcome :=
  if env.writeFile (env.join cursorDst (str "README.md")) then
    ⟨[(env.join cursorDst (str "README.md"), ensureTrailingNewline cursorWarning)], false⟩
  else ⟨[], true⟩

/-- Run the steps in order, each on the state the earlier ones left; the first
step that returns an error ends the run. The result is the final state and
whether the run failed. -/
def runSteps (host : Host) : FileSystem → List (Env → Outcome) → FileSystem × Bool
  | fs, [] => (fs, false)
  | fs, step :: rest =>
    if (step (envOf host fs)).failed then
      (applyWrites fs (step (envOf host fs)).written, true)
    else runSteps host (applyWrites fs (step (envOf host fs)).written) rest

/-- `generateRules` (main.go:20-74): the final state of the file system and
whether an error was returned. Paths are `filepath.Join` of the root and fixed
names. -/
def generateRules (host : Host) (fs : FileSystem) : FileSystem × Bool :=
  match host.findGitRoot with
  | none => (fs, true)
  | some rootDir =>
    let sharedDir := rootDir ++ str "/agentrules/shared"
    let cursorSrcDir := rootDir ++ str "/agentrules/cursor"
    let windsurfSrcDir := rootDir ++ str "/agentrules/windsurf"
    let claudeCodeSrcDir := rootDir ++ str "/agentrules/claude-code"
    let chatgptCodexSrcDir := rootDir ++ str "/agentrules/chatgpt-codex"
    let cursorDst := rootDir ++ str "/.cursor/rules"
    let windsurfRules := rootDir ++ str "/.windsurfrules"
    let claudeMD := rootDir ++ str "/CLAUDE.md"
    let agentsMD := rootDir ++ str "/AGENTS.md"
    if host.mkdirAll cursorDst = false then (fs, true)
    else if host.removeAll cursorDst = false then (fs, true)
    else
      runSteps host (removeAll fs cursorDst)
        [fun env => generateCursorRules env sharedDir cursorDst,
         fun env => generateCursorRules env cursorSrcDir cursorDst,
         fun env => generateWindsurfRules env [sharedDir, windsurfSrcDir] windsurfRules,
         fun env => generateClaudeRules env [sharedDir, claudeCodeSrcDir] claudeMD,
         fun env => generateAgentRules env [sharedDir, chatgptCodexSrcDir] agentsMD,
         fun env => addWarningFiles env cursorDst claudeMD]

/-- Whether a path lies below the directory `agentrules` of the root. -/
def isSource (root p : Bytes) : Bool := hasPrefix p (root ++ str "/agentrules/")

/-- The files below `agentrules`. -/
def srcPart (root : Bytes) (fs : FileSystem) : FileSystem :=
  fs.filter (fun e => isSource root e.1)

/-- A host that lets every call succeed, in the repository rooted at `/r`. -/
def plainHost : Host where
  findGitRoot := some (str "/r")
  mkdirAll := fun _ => true
  removeAll := fun _ => true
  writeFile := fun _ => true
  canRead := fun _ => true

/-- A small repository: a shared rule, a Claude rule, and a stale generated
file left in `.cursor/rules`. -/
def smallRepo : FileSystem :=
  [(str "/r/agentrules/shared/01.md", str "# H\n\nBody shared.\n"),
   (str "/r/agentrules/claude-code/02.md", str "Body tool.\n"),
   (str "/r/.cursor/rules/old.gen.mdc", str "stale\n")]

/-- A document with a heading, then a line that fills the scanner's buffer,
then the line `Body`. -/
def headingLongDoc : Bytes := str "# T\n" ++ longLineDoc

/-- A document whose first line fills the scanner's buffer and whose second
line is a malformed sentinel comment. -/
def longSentinelDoc : Bytes :=
  List.replicate maxScanTokenSize 97 ++ str "\n<!-- @agentrules: broken\n"

/-! # Theorems -/

/-! ## Basic facts -/

theorem ensureTrailingNewline_getLast (c : Bytes) :
    (ensureTrailingNewline c).getLast? = some 10 := by
  unfold ensureTrailingNewline
  split
  · simp
  · next h =>
    push_neg at h
    exact h.2

theorem ensureTrailingNewline_eq_or (c : Bytes) :
    ensureTrailingNewline c = c ∨ ensureTrailingNewline c = c ++ [10] := by
  unfold ensureTrailingNewline
  split
  · exact Or.inr rfl
  · exact Or.inl rfl

theorem claudeLoop_eq_windsurfLoop (m : Mode) (evs : List (Option Bytes)) :
    claudeLoop m evs = windsurfLoop m evs := by
  induction evs generalizing m with
  | nil => cases m <;> simp [claudeLoop, windsurfLoop]
  | cons e evs ih =>
    cases m <;> cases e <;> simp [claudeLoop, windsurfLoop, ih]

theorem agentLoop_eq_windsurfLoop (m : Mode) (evs : List (Option Bytes)) :
    agentLoop m evs = windsurfLoop m evs := by
  induction evs generalizing m with
  | nil => cases m <;> simp [agentLoop, windsurfLoop]
  | cons e evs ih =>
    cases m <;> cases e <;> simp [agentLoop, windsurfLoop, ih]

/-- Every file the loop of `generateCursorRules` adds to `written` ends with `'\n'`. -/
theorem cursorLoop_getLast (env : Env) (dstDir : Bytes) (files : List Bytes)
    (written : List (Bytes × Bytes))
    (hw : ∀ pc ∈ written, pc.2.getLast? = some 10) :
    ∀ pc ∈ (cursorLoop env dstDir files written).written, pc.2.getLast? = some 10 := by
  induction files generalizing written with
  | nil => simpa [cursorLoop] using hw
  | cons file files ih =>
    simp only [cursorLoop]
    cases env.readFile file with
    | none => simpa using hw
    | some content =>
      simp only
      split
      · apply ih
        intro pc hpc
        rcases List.mem_append.1 hpc with h | h
        · exact hw pc h
        · simp only [List.mem_singleton] at h
          subst h
          exact ensureTrailingNewline_getLast _
      · simpa using hw

/-- The one file a concatenation generator writes ends with `'\n'`. -/
theorem concat_written_getLast (o : Outcome) (dst output : Bytes) (ok : Bool)
    (h : o = if ok = true then ⟨[(dst, ensureTrailingNewline output)], false⟩ else ⟨[], true⟩) :
    ∀ pc ∈ o.written, pc.2.getLast? = some 10 := by
  subst h
  cases ok
  · simp
  · simp [ensureTrailingNewline_getLast]

/-! ## C1: sentinel comments in the concatenated outputs -/

set_option maxRecDepth 100000 in
/-- C1 (fails on the code): on the repository of `setupTestRepo`, the file
`generateClaudeRules` writes for the directories shared and claude-code still
holds a well-formed sentinel line and the text `@agentrules`; the generators
never remove such a line. `TestGenerateClaudeRules_StripsComment` expects the
opposite. -/
theorem C1_claude_keeps_sentinel :
    (generateClaudeRules testRepo
        [str "/r/agentrules/shared", str "/r/agentrules/claude-code"] (str "/r/CLAUDE.md")).failed
      = false ∧
    (generateClaudeRules testRepo
        [str "/r/agentrules/shared", str "/r/agentrules/claude-code"] (str "/r/CLAUDE.md")).written.map
      (fun pc => (pc.1, hasSentinelLine pc.2, containsBytes pc.2 (str "@agentrules")))
      = [(str "/r/CLAUDE.md", true, true)] := by
  decide

/-! ## C3: trailing newlines -/

/-- C3 (as stated, fails): a Cursor source that ends with two newlines is
written with both, and the Windsurf output for a one-line source ends with the
two newlines of the separator. -/
theorem C3_counterexample :
    (generateCursorRules (oneFileEnv (str "Body.\n\n")) (str "src") (str "dst")).written.map
        (fun pc => (pc.2, endsWithOneNewline pc.2))
      = [(cursorHeader (str "a") ++ str "Body.\n\n", false)] ∧
    (generateWindsurfRules (oneFileEnv (str "Body.\n")) [str "src"] (str "out")).written.map
        (fun pc => (hasSuffix pc.2 (str "Body.\n\n---\n\n"), endsWithOneNewline pc.2))
      = [(true, false)] := by
  decide

/-- C3 (amended): every file written by `generateCursorRules`,
`generateWindsurfRules`, `generateClaudeRules` and `generateAgentRules` ends
with `'\n'`, for every file system and every argument. -/
theorem C3_written_files_end_with_newline (env : Env) (srcDir dstDir : Bytes)
    (srcDirs : List Bytes) (dst : Bytes) :
    (∀ pc ∈ (generateCursorRules env srcDir dstDir).written, pc.2.getLast? = some 10) ∧
    (∀ pc ∈ (generateWindsurfRules env srcDirs dst).written, pc.2.getLast? = some 10) ∧
    (∀ pc ∈ (generateClaudeRules env srcDirs dst).written, pc.2.getLast? = some 10) ∧
    (∀ pc ∈ (generateAgentRules env srcDirs dst).written, pc.2.getLast? = some 10) := by
  refine ⟨?_, ?_, ?_, ?_⟩
  · unfold generateCursorRules
    split
    · split
      · simp
      · exact cursorLoop_getLast env dstDir _ [] (by simp)
    · simp
  · unfold generateWindsurfRules
    split
    · simp
    · exact concat_written_getLast _ dst _ (env.writeFile dst) rfl
  · unfold generateClaudeRules
    split
    · simp
    · exact concat_written_getLast _ dst _ (env.writeFile dst) rfl
  · unfold generateAgentRules
    split
    · simp
    · exact concat_written_getLast _ dst _ (env.writeFile dst) rfl

/-- C3 (amended), at a concrete input: the Cursor file written for a source
without a final newline ends with `'\n'`. -/
theorem C3_witness :
    (generateCursorRules (oneFileEnv (str "Body.")) (str "src") (str "dst")).written
        = [(str "dst/a.gen.mdc", cursorHeader (str "a") ++ str "Body.\n")] ∧
    ∀ pc ∈ (generateCursorRules (oneFileEnv (str "Body.")) (str "src") (str "dst")).written,
      pc.2.getLast? = some 10 :=
  ⟨by decide,
   (C3_written_files_end_with_newline (oneFileEnv (str "Body.")) (str "src") (str "dst") [] []).1⟩

/-! ## C9: sentinel comments in the Cursor outputs -/

set_option maxRecDepth 100000 in
/-- C9 (fails on the code): on the repository of `setupTestRepo`, both files
`generateCursorRules` writes (from the shared source, which has no frontmatter,
and from the cursor source, which has) still hold a well-formed sentinel line
and the text `@agentrules`. `TestGenerateCursorRules_StripsComment` expects the
opposite. -/
theorem C9_cursor_keeps_sentinel :
    (generateCursorRules testRepo (str "/r/agentrules/shared") (str "/r/.cursor/rules")).written.map
        (fun pc => (pc.1, hasSentinelLine pc.2, containsBytes pc.2 (str "@agentrules")))
      = [(str "/r/.cursor/rules/01-shared.gen.mdc", true, true)] ∧
    (generateCursorRules testRepo (str "/r/agentrules/cursor") (str "/r/.cursor/rules")).written.map
        (fun pc => (pc.1, hasSentinelLine pc.2, containsBytes pc.2 (str "@agentrules")))
      = [(str "/r/.cursor/rules/01-cursor.gen.mdc", true, true)] := by
  decide

/-! ## The loop of `generateCursorRules` -/

theorem hasPrefix_append (p s : Bytes) : hasPrefix (p ++ s) p = true := by
  induction p with
  | nil => cases s <;> simp [hasPrefix]
  | cons a p ih => simp [hasPrefix, ih]

/-- A document whose first line is exactly `---` starts with the bytes `---`. -/
theorem hasPrefix_of_beginsWithYamlBlock (content : Bytes)
    (h : beginsWithYamlBlock content = true) : hasPrefix content (str "---") = true := by
  unfold beginsWithYamlBlock firstLine at h
  have h1 : content.takeWhile (· != 10) = str "---" := by simpa using h
  obtain ⟨t, ht⟩ := List.takeWhile_prefix (fun b : Nat => b != 10) (l := content)
  rw [h1] at ht
  rw [← ht]
  exact hasPrefix_append _ _

theorem mem_sortStrings (l : List Bytes) (a : Bytes) : a ∈ sortStrings l ↔ a ∈ l :=
  (List.perm_insertionSort _ l).mem_iff

/-- Files already written stay written. -/
theorem cursorLoop_written_mono (env : Env) (dstDir : Bytes) (files : List Bytes)
    (written : List (Bytes × Bytes)) :
    ∀ pc ∈ written, pc ∈ (cursorLoop env dstDir files written).written := by
  induction files generalizing written with
  | nil => simp [cursorLoop]
  | cons file files ih =>
    intro pc hpc
    simp only [cursorLoop]
    cases env.readFile file with
    | none => simpa using hpc
    | some content =>
      simp only
      split
      · exact ih _ pc (List.mem_append_left _ hpc)
      · simpa using hpc

/-- Every file the loop writes comes from a source it could read, under the
path and with the content of main.go:117-141. -/
theorem cursorLoop_mem (env : Env) (dstDir : Bytes) (files : List Bytes)
    (written : List (Bytes × Bytes)) :
    ∀ pc ∈ (cursorLoop env dstDir files written).written,
      pc ∈ written ∨ ∃ file ∈ files, ∃ content, env.readFile file = some content ∧
        pc = (cursorOutFile env dstDir file,
              ensureTrailingNewline (cursorOutput (cursorBase file) content)) := by
  induction files generalizing written with
  | nil => intro pc hpc; exact Or.inl (by simpa [cursorLoop] using hpc)
  | cons file files ih =>
    intro pc hpc
    simp only [cursorLoop] at hpc
    cases hr : env.readFile file with
    | none => rw [hr] at hpc; exact Or.inl (by simpa using hpc)
    | some content =>
      rw [hr] at hpc
      simp only at hpc
      split at hpc
      · rcases ih _ pc hpc with h | ⟨f, hf, c, hc, hpc2⟩
        · rcases List.mem_append.1 h with h | h
          · exact Or.inl h
          · refine Or.inr ⟨file, List.mem_cons_self _ _, content, hr, ?_⟩
            simpa [cursorOutFile, cursorBase] using h
        · exact Or.inr ⟨f, List.mem_cons_of_mem _ hf, c, hc, hpc2⟩
      · exact Or.inl (by simpa using hpc)

/-- When the loop returns no error, every source was read and written. -/
theorem cursorLoop_complete (env : Env) (dstDir : Bytes) (files : List Bytes)
    (written : List (Bytes × Bytes))
    (hok : (cursorLoop env dstDir files written).failed = false) :
    ∀ file ∈ files, ∃ content, env.readFile file = some content ∧
      (cursorOutFile env dstDir file,
        ensureTrailingNewline (cursorOutput (cursorBase file) content))
        ∈ (cursorLoop env dstDir files written).written := by
  induction files generalizing written with
  | nil => intro file hf; simp at hf
  | cons f files ih =>
    intro file hfile
    simp only [cursorLoop] at hok ⊢
    cases hr : env.readFile f with
    | none => rw [hr] at hok; simp at hok
    | some content =>
      rw [hr] at hok
      simp only at hok ⊢
      split at hok
      · next hw =>
        simp only [hw, if_true]
        rcases List.mem_cons.1 hfile with h | h
        · subst h
          refine ⟨content, hr, ?_⟩
          apply cursorLoop_written_mono
          simp [cursorOutFile, cursorBase]
        · exact ih _ hok file h
      · simp at hok

/-- The files `generateCursorRules` writes, and that it writes one for every
source when it returns no error. -/
theorem generateCursorRules_spec (env : Env) (srcDir dstDir : Bytes) :
    (∀ pc ∈ (generateCursorRules env srcDir dstDir).written,
      ∃ files, env.glob srcDir = some files ∧ ∃ file ∈ files, ∃ content,
        env.readFile file = some content ∧
        pc = (cursorOutFile env dstDir file,
              ensureTrailingNewline (cursorOutput (cursorBase file) content))) ∧
    ((generateCursorRules env srcDir dstDir).failed = false →
      ∃ files, env.glob srcDir = some files ∧ ∀ file ∈ files, ∃ content,
        env.readFile file = some content ∧
        (cursorOutFile env dstDir file,
          ensureTrailingNewline (cursorOutput (cursorBase file) content))
          ∈ (generateCursorRules env srcDir dstDir).written) := by
  unfold generateCursorRules
  cases env.mkdirAll dstDir with
  | false => simp
  | true =>
    cases hg : env.glob srcDir with
    | none => simp
    | some files =>
      simp only [if_true]
      constructor
      · intro pc hpc
        rcases cursorLoop_mem env dstDir _ [] pc hpc with h | ⟨f, hf, c, hc, h⟩
        · simp at h
        · exact ⟨files, rfl, f, (mem_sortStrings _ _).1 hf, c, hc, h⟩
      · intro hok
        refine ⟨files, rfl, fun file hfile => ?_⟩
        exact cursorLoop_complete env dstDir _ [] hok file ((mem_sortStrings _ _).2 hfile)

theorem trimSuffix_append (b m : Bytes) : trimSuffix (b ++ m) m = b := by
  have h : hasSuffix (b ++ m) m = true := by
    unfold hasSuffix
    rw [List.reverse_append]
    exact hasPrefix_append _ _
  simp [trimSuffix, h]

/-- `filepath.Base` of `dir/name` is `name` when `name` is not empty and has no slash. -/
theorem filepathBase_join (dir name : Bytes) (hne : name ≠ []) (hs : 47 ∉ name) :
    filepathBase (dir ++ str "/" ++ name) = name := by
  obtain ⟨x, xs, hx⟩ : ∃ x xs, name.reverse = x :: xs := by
    cases h : name.reverse with
    | nil => exact absurd (List.reverse_eq_nil_iff.1 h) hne
    | cons x xs => exact ⟨x, xs, rfl⟩
  have hmem : ∀ a ∈ name.reverse, a ≠ 47 := by
    intro a ha h
    exact hs (h ▸ List.mem_reverse.1 ha)
  have hx47 : x ≠ 47 := hmem x (by rw [hx]; exact List.mem_cons_self _ _)
  have hrev : (dir ++ str "/" ++ name).reverse = name.reverse ++ 47 :: dir.reverse := by
    simp [str]
  have hdrop : (dir ++ str "/" ++ name).reverse.dropWhile (· == 47)
      = (dir ++ str "/" ++ name).reverse := by
    rw [hrev, hx, List.cons_append, List.dropWhile_cons_of_neg (by simpa using hx47)]
  have htake : (dir ++ str "/" ++ name).reverse.takeWhile (· != 47) = name.reverse := by
    rw [hrev, List.takeWhile_append_of_pos (by simpa using hmem)]
    simp [List.takeWhile]
  have hne2 : dir ++ str "/" ++ name ≠ [] := by
    cases name with
    | nil => exact absurd rfl hne
    | cons a t => simp
  unfold filepathBase
  simp only [hne2, if_false, hdrop, List.reverse_reverse, htake]
  simp [hne]

/-- The base name of `dir/base.md` is `base`. -/
theorem cursorBase_join (dir base : Bytes) (hs : 47 ∉ base) :
    cursorBase (dir ++ str "/" ++ base ++ str ".md") = base := by
  unfold cursorBase
  have h : dir ++ str "/" ++ base ++ str ".md" = dir ++ str "/" ++ (base ++ str ".md") := by
    simp
  rw [h, filepathBase_join dir (base ++ str ".md") (by simp [str])
    (by simp [str, hs]), trimSuffix_append]

/-! ## C7: Cursor sources with frontmatter -/

/-- C7: for every source whose content begins with a YAML block (first line
exactly `---`), the file `generateCursorRules` writes for it is the source
content passed through `ensureTrailingNewline` and nothing else; and when the
generator returns no error, it has written that file for every such source. -/
theorem C7_cursor_frontmatter_verbatim (env : Env) (srcDir dstDir : Bytes) :
    (∀ pc ∈ (generateCursorRules env srcDir dstDir).written,
      ∃ files, env.glob srcDir = some files ∧ ∃ file ∈ files, ∃ content,
        env.readFile file = some content ∧ pc.1 = cursorOutFile env dstDir file ∧
        (beginsWithYamlBlock content = true → pc.2 = ensureTrailingNewline content)) ∧
    ((generateCursorRules env srcDir dstDir).failed = false →
      ∀ files, env.glob srcDir = some files → ∀ file ∈ files, ∀ content,
        env.readFile file = some content → beginsWithYamlBlock content = true →
        (cursorOutFile env dstDir file, ensureTrailingNewline content)
          ∈ (generateCursorRules env srcDir dstDir).written) := by
  obtain ⟨h1, h2⟩ := generateCursorRules_spec env srcDir dstDir
  constructor
  · intro pc hpc
    obtain ⟨files, hg, file, hf, content, hr, hpc2⟩ := h1 pc hpc
    refine ⟨files, hg, file, hf, content, hr, by rw [hpc2], fun hy => ?_⟩
    rw [hpc2]
    simp [cursorOutput, hasPrefix_of_beginsWithYamlBlock content hy]
  · intro hok files hg file hf content hr hy
    obtain ⟨files2, hg2, h3⟩ := h2 hok
    rw [hg] at hg2
    cases hg2
    obtain ⟨c, hc, hmem⟩ := h3 file hf
    rw [hr] at hc
    cases hc
    simpa [cursorOutput, hasPrefix_of_beginsWithYamlBlock content hy] using hmem

set_option maxRecDepth 100000 in
/-- C7 at a concrete input: the cursor source of `setupTestRepo`, which begins
with frontmatter and ends with a newline, is written unchanged. -/
theorem C7_witness :
    (generateCursorRules testRepo (str "/r/agentrules/cursor") (str "/r/.cursor/rules")).failed
      = false ∧
    beginsWithYamlBlock cursorFrontmatter = true ∧
    cursorOutFile testRepo (str "/r/.cursor/rules") (str "/r/agentrules/cursor/01-cursor.md")
      = str "/r/.cursor/rules/01-cursor.gen.mdc" ∧
    ensureTrailingNewline cursorFrontmatter = cursorFrontmatter ∧
    (cursorOutFile testRepo (str "/r/.cursor/rules") (str "/r/agentrules/cursor/01-cursor.md"),
      ensureTrailingNewline cursorFrontmatter)
      ∈ (generateCursorRules testRepo (str "/r/agentrules/cursor") (str "/r/.cursor/rules")).written :=
  ⟨by decide, by decide, by decide, by decide,
   (C7_cursor_frontmatter_verbatim testRepo (str "/r/agentrules/cursor") (str "/r/.cursor/rules")).2
     (by decide) [str "/r/agentrules/cursor/01-cursor.md"] (by decide)
     (str "/r/agentrules/cursor/01-cursor.md") (by decide) cursorFrontmatter (by decide)
     (by decide)⟩

/-! ## C8: Cursor sources without frontmatter -/

/-- C8 (as stated, fails): a source whose first line is `----` does not begin
with a YAML block, and `generateCursorRules` writes it without the default
frontmatter. -/
theorem C8_counterexample :
    beginsWithYamlBlock (str "----\nBody.\n") = false ∧
    (generateCursorRules (oneFileEnv (str "----\nBody.\n")) (str "src") (str "dst")).written
      = [(str "dst/a.gen.mdc", str "----\nBody.\n")] := by
  decide

/-- C8 (amended): for every source `dir/base.md` whose content does not start
with the three bytes `---`, when `generateCursorRules` returns no error it has
written to `base.gen.mdc` in the destination directory the default frontmatter
naming `base.md`, followed by the source content, passed through
`ensureTrailingNewline`. -/
theorem C8_cursor_default_frontmatter (env : Env) (srcDir dstDir dir base content : Bytes)
    (files : List Bytes) (hglob : env.glob srcDir = some files)
    (hfile : dir ++ str "/" ++ base ++ str ".md" ∈ files) (hbase : 47 ∉ base)
    (hread : env.readFile (dir ++ str "/" ++ base ++ str ".md") = some content)
    (hyaml : hasPrefix content (str "---") = false)
    (hok : (generateCursorRules env srcDir dstDir).failed = false) :
    (env.join dstDir (base ++ str ".gen.mdc"),
      ensureTrailingNewline
        (str "---\n"
          ++ (str "description: Auto" ++ [226, 128, 145] ++ str "generated from " ++ base
            ++ str ".md\n")
          ++ str "globs: [\"**\"]\n"
          ++ str "alwaysApply: false\n"
          ++ str "---\n"
          ++ content))
      ∈ (generateCursorRules env srcDir dstDir).written := by
  obtain ⟨files2, hg2, h3⟩ := (generateCursorRules_spec env srcDir dstDir).2 hok
  rw [hglob] at hg2
  cases hg2
  obtain ⟨c, hc, hmem⟩ := h3 _ hfile
  rw [hread] at hc
  cases hc
  simpa only [cursorOutFile, cursorBase_join dir base hbase, cursorOutput, hyaml,
    cursorHeader, Bool.false_eq_true, if_false] using hmem

/-- C8 (amended) at a concrete input: `src/a.md` with content `Body.` gives
`dst/a.gen.mdc` with the default frontmatter and a final newline. -/
theorem C8_witness :
    (str "dst" ++ str "/" ++ (str "a" ++ str ".gen.mdc"),
      ensureTrailingNewline
        (str "---\n"
          ++ (str "description: Auto" ++ [226, 128, 145] ++ str "generated from " ++ str "a"
            ++ str ".md\n")
          ++ str "globs: [\"**\"]\n"
          ++ str "alwaysApply: false\n"
          ++ str "---\n"
          ++ str "Body."))
      ∈ (generateCursorRules (oneFileEnv (str "Body.")) (str "src") (str "dst")).written :=
  C8_cursor_default_frontmatter (oneFileEnv (str "Body.")) (str "src") (str "dst") (str "src")
    (str "a") (str "Body.") [str "src/a.md"] (by decide) (by decide) (by decide) (by decide)
    (by decide) (by decide)

/-! ## Sorting and collecting the source files -/

theorem strLE_total (a b : Bytes) : strLE a b = true ∨ strLE b a = true := by
  induction a generalizing b with
  | nil => simp [strLE]
  | cons x a ih =>
    cases b with
    | nil => simp [strLE]
    | cons y b =>
      simp only [strLE, Bool.or_eq_true, Bool.and_eq_true, decide_eq_true_eq, beq_iff_eq]
      rcases Nat.lt_trichotomy x y with h | h | h
      · exact Or.inl (Or.inl h)
      · rcases ih b with h2 | h2
        · exact Or.inl (Or.inr ⟨h, h2⟩)
        · exact Or.inr (Or.inr ⟨h.symm, h2⟩)
      · exact Or.inr (Or.inl h)

theorem strLE_trans (a b c : Bytes) (hab : strLE a b = true) (hbc : strLE b c = true) :
    strLE a c = true := by
  induction a generalizing b c with
  | nil => simp [strLE]
  | cons x a ih =>
    cases b with
    | nil => simp [strLE] at hab
    | cons y b =>
      cases c with
      | nil => simp [strLE] at hbc
      | cons z c =>
        simp only [strLE, Bool.or_eq_true, Bool.and_eq_true, decide_eq_true_eq,
          beq_iff_eq] at hab hbc ⊢
        rcases hab with h1 | ⟨h1, h1'⟩
        · rcases hbc with h2 | ⟨h2, _⟩
          · exact Or.inl (Nat.lt_trans h1 h2)
          · exact Or.inl (h2 ▸ h1)
        · rcases hbc with h2 | ⟨h2, h2'⟩
          · exact Or.inl (h1 ▸ h2)
          · exact Or.inr ⟨h1.trans h2, ih b c h1' h2'⟩

theorem strLE_antisymm (a b : Bytes) (hab : strLE a b = true) (hba : strLE b a = true) :
    a = b := by
  induction a generalizing b with
  | nil =>
    cases b with
    | nil => rfl
    | cons y b => simp [strLE] at hba
  | cons x a ih =>
    cases b with
    | nil => simp [strLE] at hab
    | cons y b =>
      simp only [strLE, Bool.or_eq_true, Bool.and_eq_true, decide_eq_true_eq,
        beq_iff_eq] at hab hba
      rcases hab with h1 | ⟨h1, h1'⟩
      · rcases hba with h2 | ⟨h2, _⟩
        · exact absurd h1 (Nat.lt_asymm h2)
        · exact absurd h1 (by omega)
      · rcases hba with h2 | ⟨_, h2'⟩
        · exact absurd h2 (by omega)
        · rw [h1, ih b h1' h2']

/-- The output of `sort.Strings` is in ascending order. -/
theorem sortStrings_sorted (l : List Bytes) :
    (sortStrings l).Sorted (fun a b => strLE a b = true) := by
  haveI : IsTotal Bytes (fun a b => strLE a b = true) := ⟨strLE_total⟩
  haveI : IsTrans Bytes (fun a b => strLE a b = true) := ⟨strLE_trans⟩
  exact List.sorted_insertionSort _ l

/-- The output of `sort.Strings` holds the same strings as its input. -/
theorem sortStrings_perm (l : List Bytes) : (sortStrings l).Perm l :=
  List.perm_insertionSort _ l

/-- The collecting loop (main.go:153-159): when every glob succeeds, `allFiles`
ends as the matches of the directories, one directory after the other. -/
theorem collect_eq (env : Env) (srcDirs : List Bytes) (lists : List (List Bytes))
    (init : List Bytes) (h : List.Forall₂ (fun d l => env.glob d = some l) srcDirs lists) :
    srcDirs.foldlM (fun allFiles srcDir => (env.glob srcDir).map (allFiles ++ ·)) init
      = some (init ++ lists.flatten) := by
  induction h generalizing init with
  | nil => simp
  | cons hd _ ih =>
    simp only [List.foldlM, hd, Option.map_some', Option.bind_eq_bind, Option.some_bind]
    rw [ih]
    simp

/-- The loop over the files (main.go:168-201) appends one block per file. -/
theorem foldl_blocks (read : Bytes → Option Bytes) (g : Bytes → Bytes) (sep : Bytes)
    (files : List Bytes) (init : Bytes) :
    files.foldl
        (fun output file =>
          match read file with
          | none => output
          | some data => output ++ g data ++ sep) init
      = init ++ files.flatMap (fun file =>
          match read file with
          | none => []
          | some data => g data ++ sep) := by
  induction files generalizing init with
  | nil => simp
  | cons f files ih =>
    simp only [List.foldl_cons, List.flatMap_cons]
    rw [ih]
    cases h : read f <;> simp [h]

theorem generateWindsurfRules_eq (env : Env) (srcDirs : List Bytes) (dst : Bytes)
    (lists : List (List Bytes))
    (hglob : List.Forall₂ (fun d l => env.glob d = some l) srcDirs lists)
    (hw : env.writeFile dst = true) :
    generateWindsurfRules env srcDirs dst
      = ⟨[(dst, ensureTrailingNewline
            (concatText windsurfBanner (str "\n---\n\n") windsurfLoop env
              (sortStrings lists.flatten)))], false⟩ := by
  unfold generateWindsurfRules
  rw [collect_eq env srcDirs lists [] hglob]
  simp only [List.nil_append, hw, if_true]
  rw [foldl_blocks env.readFile (fun data => windsurfLoop .first (scanFile data))]
  rfl

theorem generateClaudeRules_eq (env : Env) (srcDirs : List Bytes) (dst : Bytes)
    (lists : List (List Bytes))
    (hglob : List.Forall₂ (fun d l => env.glob d = some l) srcDirs lists)
    (hw : env.writeFile dst = true) :
    generateClaudeRules env srcDirs dst
      = ⟨[(dst, ensureTrailingNewline
            (concatText claudeBanner (str "\n---\n\n") claudeLoop env
              (sortStrings lists.flatten)))], false⟩ := by
  unfold generateClaudeRules
  rw [collect_eq env srcDirs lists [] hglob]
  simp only [List.nil_append, hw, if_true]
  rw [foldl_blocks env.readFile (fun data => claudeLoop .first (scanFile data))]
  rfl

theorem generateAgentRules_eq (env : Env) (srcDirs : List Bytes) (dst : Bytes)
    (lists : List (List Bytes))
    (hglob : List.Forall₂ (fun d l => env.glob d = some l) srcDirs lists)
    (hw : env.writeFile dst = true) :
    generateAgentRules env srcDirs dst
      = ⟨[(dst, ensureTrailingNewline
            (concatText agentBanner (str "\n") agentLoop env (sortStrings lists.flatten)))],
          false⟩ := by
  unfold generateAgentRules
  rw [collect_eq env srcDirs lists [] hglob]
  simp only [List.nil_append, hw, if_true]
  rw [foldl_blocks env.readFile (fun data => agentLoop .first (scanFile data))]
  rfl

/-! ## C2: the order of the files in a concatenated output -/

set_option maxRecDepth 100000 in
/-- C2 (as stated, fails): for the directories `[shared, claude-code]`, each
with one file, `generateClaudeRules` emits the content of
`claude-code/02.md` before the content of `shared/01.md`, because
`claude-code/02.md` sorts before `shared/01.md`. -/
theorem C2_counterexample :
    (generateClaudeRules scenarioEnv [str "shared", str "claude-code"] (str "CLAUDE.md")).written
      = [(str "CLAUDE.md",
          claudeBanner
            ++ str "<!-- @agentrules: short -->\n\nBody tool.\n" ++ str "\n---\n\n"
            ++ str "\nBody shared.\n" ++ str "\n---\n\n")] := by
  decide

/-- C2 (amended): when every glob succeeds and the destination can be written,
each concatenation generator emits the files in ascending bytewise order of
their full paths, the matches of all directories sorted together: the output
is the banner followed by the blocks of the files in an order that is sorted
and is a rearrangement of the collected paths. In particular, for two
directories with one file each, the file of the first directory comes first
exactly when its path sorts before or equal to the path of the other file. -/
theorem C2_files_emitted_in_path_order (env : Env) (srcDirs : List Bytes) (dst : Bytes)
    (lists : List (List Bytes))
    (hglob : List.Forall₂ (fun d l => env.glob d = some l) srcDirs lists)
    (hw : env.writeFile dst = true) :
    ∃ order : List Bytes,
      order.Sorted (fun a b => strLE a b = true) ∧
      order.Perm lists.flatten ∧
      (∀ a b, lists = [[a], [b]] → order = if strLE a b = true then [a, b] else [b, a]) ∧
      generateWindsurfRules env srcDirs dst
        = ⟨[(dst, ensureTrailingNewline
              (concatText windsurfBanner (str "\n---\n\n") windsurfLoop env order))], false⟩ ∧
      generateClaudeRules env srcDirs dst
        = ⟨[(dst, ensureTrailingNewline
              (concatText claudeBanner (str "\n---\n\n") claudeLoop env order))], false⟩ ∧
      generateAgentRules env srcDirs dst
        = ⟨[(dst, ensureTrailingNewline
              (concatText agentBanner (str "\n") agentLoop env order))], false⟩ := by
  refine ⟨sortStrings lists.flatten, sortStrings_sorted _, sortStrings_perm _, ?_,
    generateWindsurfRules_eq env srcDirs dst lists hglob hw,
    generateClaudeRules_eq env srcDirs dst lists hglob hw,
    generateAgentRules_eq env srcDirs dst lists hglob hw⟩
  intro a b hl
  subst hl
  by_cases h : strLE a b = true <;>
    simp [sortStrings, List.insertionSort, List.orderedInsert, h]

/-- C2 (amended) at a concrete input: the scenario of the specification with
the directories `[shared, claude-code]`. -/
theorem C2_witness :
    ∃ order : List Bytes,
      order.Sorted (fun a b => strLE a b = true) ∧
      order.Perm [[str "shared/01.md"], [str "claude-code/02.md"]].flatten ∧
      (∀ a b, [[str "shared/01.md"], [str "claude-code/02.md"]] = [[a], [b]] →
        order = if strLE a b = true then [a, b] else [b, a]) ∧
      generateWindsurfRules scenarioEnv [str "shared", str "claude-code"] (str "out")
        = ⟨[(str "out", ensureTrailingNewline
              (concatText windsurfBanner (str "\n---\n\n") windsurfLoop scenarioEnv order))],
            false⟩ ∧
      generateClaudeRules scenarioEnv [str "shared", str "claude-code"] (str "out")
        = ⟨[(str "out", ensureTrailingNewline
              (concatText claudeBanner (str "\n---\n\n") claudeLoop scenarioEnv order))],
            false⟩ ∧
      generateAgentRules scenarioEnv [str "shared", str "claude-code"] (str "out")
        = ⟨[(str "out", ensureTrailingNewline
              (concatText agentBanner (str "\n") agentLoop scenarioEnv order))], false⟩ :=
  C2_files_emitted_in_path_order scenarioEnv [str "shared", str "claude-code"] (str "out")
    [[str "shared/01.md"], [str "claude-code/02.md"]]
    (List.Forall₂.cons (by decide) (List.Forall₂.cons (by decide) List.Forall₂.nil))
    (by decide)

/-! ## The line loop -/

/-- The calls of `Scan` split into the lines delivered before the first
failure and what follows, which is nothing or starts with a failed call. -/
theorem events_split (evs : List (Option Bytes)) :
    ∃ tail, evs = ((evs.takeWhile Option.isSome).filterMap id).map some ++ tail ∧
      (tail = [] ∨ ∃ t, tail = none :: t) := by
  induction evs with
  | nil => exact ⟨[], by simp, Or.inl rfl⟩
  | cons e evs ih =>
    cases e with
    | none => exact ⟨none :: evs, by simp, Or.inr ⟨evs, rfl⟩⟩
    | some l =>
      obtain ⟨tail, h1, h2⟩ := ih
      refine ⟨tail, ?_, h2⟩
      have h3 := congrArg (List.cons (some l)) h1
      simpa using h3

theorem scanFile_split (data : Bytes) :
    ∃ tail, scanFile data = (scanLines data).map some ++ tail ∧
      (tail = [] ∨ ∃ t, tail = none :: t) :=
  events_split (scanFile data)

/-- A line that starts with `---` does not start with `# `. -/
theorem not_heading_of_yaml (l : Bytes) (h : hasPrefix l (str "---") = true) :
    hasPrefix l (str "# ") = false := by
  cases l with
  | nil => rfl
  | cons a t =>
    have ha : a = 45 := by
      have := h
      simp only [str, hasPrefix] at this
      simp at this
      exact this.1
    subst ha
    simp [str, hasPrefix]

theorem windsurfLoop_body_some (l : Bytes) (evs : List (Option Bytes)) :
    windsurfLoop .body (some l :: evs) = l ++ str "\n" ++ windsurfLoop .body evs := rfl

theorem windsurfLoop_yaml_some (l : Bytes) (evs : List (Option Bytes)) :
    windsurfLoop .yaml (some l :: evs)
      = if hasPrefix l (str "---") then windsurfLoop .body evs else windsurfLoop .yaml evs := rfl

theorem windsurfLoop_first_some (l : Bytes) (evs : List (Option Bytes)) :
    windsurfLoop .first (some l :: evs)
      = if hasPrefix l (str "# ") then windsurfLoop .body evs
        else if hasPrefix l (str "---") then windsurfLoop .yaml evs
        else l ++ str "\n" ++ windsurfLoop .body evs := rfl

theorem emitLines_cons (l : Bytes) (ls : List Bytes) :
    emitLines (l :: ls) = l ++ str "\n" ++ emitLines ls := by
  simp [emitLines]

theorem emitLines_append (xs ys : List Bytes) :
    emitLines (xs ++ ys) = emitLines xs ++ emitLines ys := by
  simp [emitLines]

/-- Once `firstLine` is false, the loop emits every line up to the first
failed call, each followed by `'\n'`. -/
theorem windsurfLoop_body (ls : List Bytes) (tail : List (Option Bytes))
    (ht : tail = [] ∨ ∃ t, tail = none :: t) :
    windsurfLoop .body (ls.map some ++ tail) = emitLines ls := by
  induction ls with
  | nil =>
    rcases ht with h | ⟨t, h⟩ <;> subst h <;> simp [windsurfLoop, emitLines]
  | cons l ls ih =>
    rw [List.map_cons, List.cons_append, windsurfLoop_body_some, ih, emitLines_cons]

/-- Inside the frontmatter, the loop skips up to and including the first line
that starts with `---` and emits the lines after it. -/
theorem windsurfLoop_yaml (ls : List Bytes) (tail : List (Option Bytes))
    (ht : tail = [] ∨ ∃ t, tail = none :: t) :
    ∃ extra, windsurfLoop .yaml (ls.map some ++ tail)
        = emitLines (ls.drop ((ls.takeWhile (fun x => !hasPrefix x (str "---"))).length + 1))
          ++ extra ∧ (tail = [] → extra = []) := by
  induction ls with
  | nil =>
    refine ⟨windsurfLoop .yaml tail, by simp [emitLines], ?_⟩
    intro h
    subst h
    simp [windsurfLoop]
  | cons l ls ih =>
    by_cases hl : hasPrefix l (str "---") = true
    · refine ⟨[], ?_, fun _ => rfl⟩
      rw [List.map_cons, List.cons_append, windsurfLoop_yaml_some, if_pos hl,
        windsurfLoop_body ls tail ht]
      simp [List.takeWhile_cons, hl]
    · obtain ⟨extra, h1, h2⟩ := ih
      refine ⟨extra, ?_, h2⟩
      rw [List.map_cons, List.cons_append, windsurfLoop_yaml_some, if_neg hl, h1]
      simp [List.takeWhile_cons, hl]

/-- The loop emits the lines after the skipped heading or YAML block; after a
failed call inside the YAML block it may emit more. -/
theorem windsurfLoop_first (ls : List Bytes) (tail : List (Option Bytes))
    (ht : tail = [] ∨ ∃ t, tail = none :: t) :
    ∃ extra, windsurfLoop .first (ls.map some ++ tail)
        = emitLines (ls.drop (skipCount ls)) ++ extra ∧ (tail = [] → extra = []) := by
  cases ls with
  | nil =>
    refine ⟨[], ?_, fun _ => rfl⟩
    rcases ht with h | ⟨t, h⟩ <;> subst h <;> simp [windsurfLoop, emitLines, skipCount]
  | cons l ls =>
    by_cases hh : hasPrefix l (str "# ") = true
    · refine ⟨[], ?_, fun _ => rfl⟩
      rw [List.map_cons, List.cons_append, windsurfLoop_first_some, if_pos hh,
        windsurfLoop_body ls tail ht]
      simp [skipCount, hh]
    · by_cases hy : hasPrefix l (str "---") = true
      · obtain ⟨extra, h1, h2⟩ := windsurfLoop_yaml ls tail ht
        refine ⟨extra, ?_, h2⟩
        have hs : skipCount (l :: ls)
            = (ls.takeWhile (fun x => !hasPrefix x (str "---"))).length + 1 + 1 := by
          simp only [skipCount, yamlBlockLength, hh, hy, if_true]
          simp only [Bool.false_eq_true, if_false]
          omega
        rw [List.map_cons, List.cons_append, windsurfLoop_first_some, if_neg hh, if_pos hy, h1,
          hs, List.drop_succ_cons]
      · refine ⟨[], ?_, fun _ => rfl⟩
        rw [List.map_cons, List.cons_append, windsurfLoop_first_some, if_neg hh, if_neg hy,
          windsurfLoop_body ls tail ht]
        simp [skipCount, yamlBlockLength, hh, hy, emitLines_cons]

theorem drop_takeWhile_length (p : Bytes → Bool) (ls : List Bytes) :
    ls.drop ((ls.takeWhile p).length + 1) = (ls.dropWhile p).drop 1 := by
  induction ls with
  | nil => simp
  | cons l ls ih =>
    by_cases h : p l = true
    · simp only [List.takeWhile_cons, h, if_true, List.length_cons, List.drop_succ_cons,
        List.dropWhile_cons]
      exact ih
    · simp [List.takeWhile_cons, List.dropWhile_cons, h]

theorem dropWhile_append_singleton (a : Nat) (ha : isSpace a = false) (u : Bytes) :
    ∃ v, (u ++ [a]).dropWhile isSpace = v ++ [a] := by
  induction u with
  | nil => exact ⟨[], by simp [List.dropWhile, ha]⟩
  | cons x u ih =>
    by_cases hx : isSpace x = true
    · obtain ⟨v, hv⟩ := ih
      exact ⟨v, by simp [List.dropWhile_cons, hx, hv]⟩
    · exact ⟨x :: u, by simp [List.dropWhile_cons, hx]⟩

/-- Trimming a line whose first byte is not white space keeps that byte first. -/
theorem trimSpace_cons (a : Nat) (t : Bytes) (ha : isSpace a = false) :
    ∃ t', trimSpace (a :: t) = a :: t' := by
  obtain ⟨v, hv⟩ := dropWhile_append_singleton a ha t.reverse
  refine ⟨v.reverse, ?_⟩
  unfold trimSpace
  rw [List.dropWhile_cons_of_neg (by simp [ha]), List.reverse_cons, hv]
  simp

/-- A malformed sentinel line does not start with `# `. -/
theorem not_heading_of_malformed (l : Bytes) (h : isMalformedSentinel l = true) :
    hasPrefix l (str "# ") = false := by
  cases l with
  | nil => rfl
  | cons a t =>
    by_cases ha : a = 35
    · subst ha
      obtain ⟨t', ht'⟩ := trimSpace_cons 35 t (by decide)
      simp [isMalformedSentinel, ht', str, hasPrefix] at h
    · simp [str, hasPrefix, ha]

/-! ## C5: the leading YAML block -/

/-- C5 (as stated, fails): a document whose first line is `----` is treated as
beginning with a YAML block, and the lines through the next line that starts
with `---` are skipped; and a block opened by `---` is closed by a line that
only starts with `---`. -/
theorem C5_counterexample :
    beginsWithYamlBlock (str "----\na\n----\nb\n") = false ∧
    claudeLoop .first (scanFile (str "----\na\n----\nb\n")) = str "b\n" ∧
    windsurfLoop .first (scanFile (str "----\na\n----\nb\n")) = str "b\n" ∧
    agentLoop .first (scanFile (str "----\na\n----\nb\n")) = str "b\n" ∧
    beginsWithYamlBlock (str "---\na\n---x\nb\n---\nc\n") = true ∧
    claudeLoop .first (scanFile (str "---\na\n---x\nb\n---\nc\n")) = str "b\n---\nc\n" := by
  decide

/-- C5 (amended): for every document the scanner reads to its end (no line
reaches the token limit), with first line `l` and later lines `ls`: when `l`
starts with `---`, each concatenation generator skips `l` and the later lines
up to and including the first one that starts with `---`, and emits the lines
after it; when `l` does not start with `---`, no line is skipped as a YAML
block: all lines are emitted, except `l` itself when it starts with `# `. -/
theorem C5_yaml_block_by_line_start (data l : Bytes) (ls : List Bytes)
    (hs : scanFile data = (l :: ls).map some) :
    (hasPrefix l (str "---") = true →
      windsurfLoop .first (scanFile data)
          = emitLines ((ls.dropWhile (fun x => !hasPrefix x (str "---"))).drop 1) ∧
        claudeLoop .first (scanFile data)
          = emitLines ((ls.dropWhile (fun x => !hasPrefix x (str "---"))).drop 1) ∧
        agentLoop .first (scanFile data)
          = emitLines ((ls.dropWhile (fun x => !hasPrefix x (str "---"))).drop 1)) ∧
    (hasPrefix l (str "---") = false →
      windsurfLoop .first (scanFile data)
          = emitLines (if hasPrefix l (str "# ") = true then ls else l :: ls) ∧
        claudeLoop .first (scanFile data)
          = emitLines (if hasPrefix l (str "# ") = true then ls else l :: ls) ∧
        agentLoop .first (scanFile data)
          = emitLines (if hasPrefix l (str "# ") = true then ls else l :: ls)) := by
  have hs2 : scanFile data = (l :: ls).map some ++ [] := by simpa using hs
  obtain ⟨extra, h1, h2⟩ := windsurfLoop_first (l :: ls) [] (Or.inl rfl)
  rw [← hs2, h2 rfl, List.append_nil] at h1
  constructor
  · intro hy
    have hh := not_heading_of_yaml l hy
    have hk : skipCount (l :: ls)
        = (ls.takeWhile (fun x => !hasPrefix x (str "---"))).length + 1 + 1 := by
      simp only [skipCount, yamlBlockLength, hh, hy, if_true]
      simp only [Bool.false_eq_true, if_false]
      omega
    rw [hk, List.drop_succ_cons, drop_takeWhile_length] at h1
    exact ⟨h1, by rw [claudeLoop_eq_windsurfLoop, h1], by rw [agentLoop_eq_windsurfLoop, h1]⟩
  · intro hy
    have h : windsurfLoop .first (scanFile data)
        = emitLines (if hasPrefix l (str "# ") = true then ls else l :: ls) := by
      rw [h1]
      by_cases hh : hasPrefix l (str "# ") = true
      · simp [skipCount, hh]
      · simp [skipCount, yamlBlockLength, hh, hy]
    exact ⟨h, by rw [claudeLoop_eq_windsurfLoop, h], by rw [agentLoop_eq_windsurfLoop, h]⟩

/-- C5 (amended) at a concrete input: a block opened by `---x` and closed by
`---y`. -/
theorem C5_witness :
    (hasPrefix (str "---x") (str "---") = true →
      windsurfLoop .first (scanFile (str "---x\nmeta\n---y\nBody\n"))
          = emitLines (([str "meta", str "---y", str "Body"].dropWhile
              (fun x => !hasPrefix x (str "---"))).drop 1) ∧
        claudeLoop .first (scanFile (str "---x\nmeta\n---y\nBody\n"))
          = emitLines (([str "meta", str "---y", str "Body"].dropWhile
              (fun x => !hasPrefix x (str "---"))).drop 1) ∧
        agentLoop .first (scanFile (str "---x\nmeta\n---y\nBody\n"))
          = emitLines (([str "meta", str "---y", str "Body"].dropWhile
              (fun x => !hasPrefix x (str "---"))).drop 1)) ∧
    emitLines (([str "meta", str "---y", str "Body"].dropWhile
      (fun x => !hasPrefix x (str "---"))).drop 1) = str "Body\n" :=
  ⟨(C5_yaml_block_by_line_start (str "---x\nmeta\n---y\nBody\n") (str "---x")
      [str "meta", str "---y", str "Body"] (by decide)).1,
   by decide⟩

/-! ## Lines after the skipped block -/

/-- A line that the scanner delivers, that does not start with `# ` and that
lies after the leading YAML block the generator skips is emitted by the line
loop, byte for byte and followed by `'\n'`. -/
theorem line_after_block_emitted (data : Bytes) (pre post : List Bytes) (l : Bytes)
    (hl : scanLines data = pre ++ l :: post) (hnh : hasPrefix l (str "# ") = false)
    (hy : yamlBlockLength (scanLines data) ≤ pre.length) :
    ∃ a b, windsurfLoop .first (scanFile data) = a ++ (l ++ str "\n") ++ b := by
  obtain ⟨tail, h1, h2⟩ := scanFile_split data
  obtain ⟨extra, h3, _⟩ := windsurfLoop_first (scanLines data) tail h2
  rw [← h1] at h3
  have hk : skipCount (scanLines data) ≤ pre.length := by
    rw [hl] at hy ⊢
    cases pre with
    | nil =>
      simp only [List.nil_append, skipCount, hnh]
      simpa using hy
    | cons p pre =>
      simp only [List.cons_append, skipCount]
      split
      · simp
      · simpa using hy
  refine ⟨emitLines (pre.drop (skipCount (scanLines data))), emitLines post ++ extra, ?_⟩
  rw [h3]
  generalize skipCount (scanLines data) = k at hk ⊢
  rw [hl, List.drop_append_of_le_length hk, emitLines_append, emitLines_cons]
  simp

/-! ## C6: the lines that are kept -/

theorem splitLines_append_newline (l rest : Bytes) (hl : 10 ∉ l) :
    splitLines (l ++ 10 :: rest) = l :: splitLines rest := by
  induction l with
  | nil => simp [splitLines]
  | cons b l ih =>
    have hb : b ≠ 10 := fun h => hl (by simp [h])
    have hl2 : 10 ∉ l := fun h => hl (List.mem_cons_of_mem _ h)
    simp [splitLines, hb, ih hl2]

/-- When no raw line reaches the token limit, the scanner delivers every raw
line, without its trailing `'\r'`, and never fails. -/
theorem scanEvents_of_short (lines : List Bytes)
    (h : ∀ l ∈ lines, l.length < maxScanTokenSize) :
    scanEvents lines = (lines.map dropCR).map some := by
  induction lines with
  | nil => rfl
  | cons l ls ih =>
    have h1 : l.length < maxScanTokenSize := h l (List.mem_cons_self _ _)
    have h2 := ih (fun x hx => h x (List.mem_cons_of_mem _ hx))
    simp [scanEvents, h1, h2]

/-- For a document without over-long lines, the loop emits exactly the
delivered lines after the skipped heading or YAML block. -/
theorem windsurfLoop_of_short (data : Bytes)
    (h : ∀ l ∈ splitLines data, l.length < maxScanTokenSize) :
    windsurfLoop .first (scanFile data)
      = emitLines (((splitLines data).map dropCR).drop
          (skipCount ((splitLines data).map dropCR))) := by
  obtain ⟨extra, h1, h2⟩ := windsurfLoop_first ((splitLines data).map dropCR) [] (Or.inl rfl)
  rw [h2 rfl, List.append_nil, List.append_nil] at h1
  rw [scanFile, scanEvents_of_short _ h, h1]

/-- The block of a file that can be opened stands in the concatenated text. -/
theorem concatText_mem (banner sep : Bytes) (loop : Mode → List (Option Bytes) → Bytes)
    (env : Env) (order : List Bytes) (file data : Bytes) (hf : file ∈ order)
    (hr : env.readFile file = some data) :
    ∃ pre post, concatText banner sep loop env order
      = pre ++ loop .first (scanFile data) ++ post := by
  obtain ⟨o1, o2, ho⟩ := List.append_of_mem hf
  subst ho
  refine ⟨banner ++ o1.flatMap (fun file =>
      match env.readFile file with
      | none => []
      | some data => loop .first (scanFile data) ++ sep),
    sep ++ o2.flatMap (fun file =>
      match env.readFile file with
      | none => []
      | some data => loop .first (scanFile data) ++ sep), ?_⟩
  simp [concatText, List.flatMap_append, hr]

theorem ensureTrailingNewline_infix (x pre mid post : Bytes) (h : x = pre ++ mid ++ post) :
    ∃ pre' post', ensureTrailingNewline x = pre' ++ mid ++ post' := by
  rcases ensureTrailingNewline_eq_or x with h1 | h1
  · exact ⟨pre, post, by rw [h1, h]⟩
  · exact ⟨pre, post ++ [10], by rw [h1, h]; simp⟩

/-- C6 (as stated, fails): a line that ends with `'\r'` is written without it,
so the raw line is not in the output; the lines after a line that fills the
scanner's buffer are not emitted; a file that cannot be opened contributes
nothing. -/
theorem C6_counterexample :
    (splitLines (str "Body.\r\n") = [str "Body.\r"] ∧
      (generateClaudeRules (oneFileEnv (str "Body.\r\n")) [str "src"] (str "out")).written.map
          (fun pc => (pc.2, containsBytes pc.2 (str "Body.\r")))
        = [(claudeBanner ++ str "Body.\n" ++ str "\n---\n\n", false)]) ∧
    (splitLines longLineDoc = [List.replicate maxScanTokenSize 97, str "Body"] ∧
      claudeLoop .first (scanFile longLineDoc) = []) ∧
    (generateClaudeRules unreadableEnv [str "src"] (str "out")).written
      = [(str "out", claudeBanner)] := by
  refine ⟨by decide, ?_, by decide⟩
  have h1 : splitLines longLineDoc = [List.replicate maxScanTokenSize 97, str "Body"] := by
    have h2 : longLineDoc = List.replicate maxScanTokenSize 97 ++ 10 :: str "Body\n" := rfl
    rw [h2, splitLines_append_newline _ _ (by simp [List.mem_replicate])]
    have h3 : splitLines (str "Body\n") = [str "Body"] := by decide
    rw [h3]
  refine ⟨h1, ?_⟩
  have h4 : ¬ (List.replicate maxScanTokenSize 97).length < maxScanTokenSize := by
    rw [List.length_replicate]
    exact Nat.lt_irrefl _
  rw [claudeLoop_eq_windsurfLoop, scanFile, h1, scanEvents, if_neg h4]
  rfl

/-- C6 (amended): for every source file that a directory's glob lists and that
can be opened, whose raw lines are all shorter than the scanner's token limit:
every line that is not the dropped leading `# ` heading, not in the leading
YAML block the generator skips and not a well-formed sentinel comment is
written by each concatenation generator with one trailing `'\r'` removed, if it
has one, and otherwise byte for byte, followed by `'\n'`, blank lines included,
in the original order: the output holds the text `emitLines emitted` for a list
of lines of which those lines are a sublist. -/
theorem C6_kept_lines_emitted_in_order (env : Env) (srcDirs : List Bytes) (dst : Bytes)
    (lists : List (List Bytes)) (file data : Bytes)
    (hglob : List.Forall₂ (fun d l => env.glob d = some l) srcDirs lists)
    (hw : env.writeFile dst = true) (hfile : file ∈ lists.flatten)
    (hread : env.readFile file = some data)
    (hshort : ∀ l ∈ splitLines data, l.length < maxScanTokenSize) :
    ∃ emitted : List Bytes,
      List.Sublist
        ((((splitLines data).map dropCR).drop (skipCount ((splitLines data).map dropCR))).filter
          (fun l => !isAgentrulesComment l))
        emitted ∧
      (∃ pre post, (generateWindsurfRules env srcDirs dst).written
        = [(dst, pre ++ emitLines emitted ++ post)]) ∧
      (∃ pre post, (generateClaudeRules env srcDirs dst).written
        = [(dst, pre ++ emitLines emitted ++ post)]) ∧
      (∃ pre post, (generateAgentRules env srcDirs dst).written
        = [(dst, pre ++ emitLines emitted ++ post)]) := by
  refine ⟨((splitLines data).map dropCR).drop (skipCount ((splitLines data).map dropCR)),
    List.filter_sublist _, ?_, ?_, ?_⟩
  · obtain ⟨pre, post, h⟩ := concatText_mem windsurfBanner (str "\n---\n\n") windsurfLoop env
      (sortStrings lists.flatten) file data ((mem_sortStrings _ _).2 hfile) hread
    rw [windsurfLoop_of_short data hshort] at h
    obtain ⟨pre', post', h'⟩ := ensureTrailingNewline_infix _ _ _ _ h
    exact ⟨pre', post', by rw [generateWindsurfRules_eq env srcDirs dst lists hglob hw, h']⟩
  · obtain ⟨pre, post, h⟩ := concatText_mem claudeBanner (str "\n---\n\n") claudeLoop env
      (sortStrings lists.flatten) file data ((mem_sortStrings _ _).2 hfile) hread
    rw [claudeLoop_eq_windsurfLoop, windsurfLoop_of_short data hshort] at h
    obtain ⟨pre', post', h'⟩ := ensureTrailingNewline_infix _ _ _ _ h
    exact ⟨pre', post', by rw [generateClaudeRules_eq env srcDirs dst lists hglob hw, h']⟩
  · obtain ⟨pre, post, h⟩ := concatText_mem agentBanner (str "\n") agentLoop env
      (sortStrings lists.flatten) file data ((mem_sortStrings _ _).2 hfile) hread
    rw [agentLoop_eq_windsurfLoop, windsurfLoop_of_short data hshort] at h
    obtain ⟨pre', post', h'⟩ := ensureTrailingNewline_infix _ _ _ _ h
    exact ⟨pre', post', by rw [generateAgentRules_eq env srcDirs dst lists hglob hw, h']⟩

/-- C6 (amended) at a concrete input: the file `shared/01.md` of the scenario,
whose lines after the heading are a blank line and `Body shared.`. -/
theorem C6_witness :
    ((((splitLines (str "# H\n\nBody shared.\n")).map dropCR).drop
        (skipCount ((splitLines (str "# H\n\nBody shared.\n")).map dropCR))).filter
          (fun l => !isAgentrulesComment l)) = [[], str "Body shared."] ∧
    ∃ emitted : List Bytes,
      List.Sublist
        ((((splitLines (str "# H\n\nBody shared.\n")).map dropCR).drop
          (skipCount ((splitLines (str "# H\n\nBody shared.\n")).map dropCR))).filter
            (fun l => !isAgentrulesComment l))
        emitted ∧
      (∃ pre post, (generateWindsurfRules scenarioEnv [str "shared", str "claude-code"]
          (str "out")).written = [(str "out", pre ++ emitLines emitted ++ post)]) ∧
      (∃ pre post, (generateClaudeRules scenarioEnv [str "shared", str "claude-code"]
          (str "out")).written = [(str "out", pre ++ emitLines emitted ++ post)]) ∧
      (∃ pre post, (generateAgentRules scenarioEnv [str "shared", str "claude-code"]
          (str "out")).written = [(str "out", pre ++ emitLines emitted ++ post)]) :=
  ⟨by decide,
   C6_kept_lines_emitted_in_order scenarioEnv [str "shared", str "claude-code"] (str "out")
     [[str "shared/01.md"], [str "claude-code/02.md"]] (str "shared/01.md")
     (str "# H\n\nBody shared.\n")
     (List.Forall₂.cons (by decide) (List.Forall₂.cons (by decide) List.Forall₂.nil))
     (by decide) (by decide) (by decide) (by decide)⟩

/-! ## C17: `ensureTrailingNewline` -/

theorem hasPrefix_append_right (c x p : Bytes) (h : hasPrefix c p = true) :
    hasPrefix (c ++ x) p = true := by
  induction p generalizing c with
  | nil => cases c <;> cases x <;> simp [hasPrefix]
  | cons b p ih =>
    cases c with
    | nil => simp [hasPrefix] at h
    | cons a c =>
      simp only [hasPrefix, Bool.and_eq_true, beq_iff_eq] at h
      simp [hasPrefix, h.1, ih c h.2]

/-- C17: `ensureTrailingNewline` returns its argument when it is non-empty and
ends with `'\n'`, and its argument followed by one `'\n'` otherwise (the empty
content included); so the result always ends with `'\n'` and the argument is a
prefix of it. -/
theorem C17_ensureTrailingNewline_exact (c : Bytes) :
    ((c ≠ [] ∧ c.getLast? = some 10) → ensureTrailingNewline c = c) ∧
    (¬ (c ≠ [] ∧ c.getLast? = some 10) → ensureTrailingNewline c = c ++ [10]) ∧
    ensureTrailingNewline [] = [10] ∧
    (ensureTrailingNewline c).getLast? = some 10 ∧
    c <+: ensureTrailingNewline c := by
  refine ⟨?_, ?_, by decide, ensureTrailingNewline_getLast c, ?_⟩
  · rintro ⟨h1, h2⟩
    unfold ensureTrailingNewline
    rw [if_neg]
    simp [h1, h2]
  · intro h
    unfold ensureTrailingNewline
    rw [if_pos]
    by_cases hc : c = []
    · simp [hc]
    · right
      intro h2
      exact h ⟨hc, h2⟩
  · rcases ensureTrailingNewline_eq_or c with h | h
    · exact ⟨[], by rw [h, List.append_nil]⟩
    · exact ⟨[10], h.symm⟩

/-- C17 at concrete inputs: a content with a final newline, one without, and
the empty content. -/
theorem C17_witness :
    ensureTrailingNewline (str "a\n") = str "a\n" ∧
    ensureTrailingNewline (str "a") = str "a\n" ∧
    ensureTrailingNewline [] = str "\n" :=
  ⟨(C17_ensureTrailingNewline_exact (str "a\n")).1 (by decide),
   (C17_ensureTrailingNewline_exact (str "a")).2.1 (by decide),
   (C17_ensureTrailingNewline_exact []).2.2.1⟩

/-! ## C20: the first and last bytes of a Cursor file -/

/-- C20: every file written by `generateCursorRules` begins with the three
bytes `---` and ends with `'\n'`, whatever the sources hold. -/
theorem C20_cursor_file_shape (env : Env) (srcDir dstDir : Bytes) :
    ∀ pc ∈ (generateCursorRules env srcDir dstDir).written,
      hasPrefix pc.2 (str "---") = true ∧ pc.2.getLast? = some 10 := by
  intro pc hpc
  obtain ⟨_, _, file, _, content, _, h⟩ := (generateCursorRules_spec env srcDir dstDir).1 pc hpc
  rw [h]
  refine ⟨?_, ensureTrailingNewline_getLast _⟩
  have h1 : hasPrefix (cursorOutput (cursorBase file) content) (str "---") = true := by
    unfold cursorOutput
    split
    · assumption
    · simp only [cursorHeader, List.append_assoc]
      exact hasPrefix_append_right (str "---") _ _ (by decide)
  rcases ensureTrailingNewline_eq_or (cursorOutput (cursorBase file) content) with h2 | h2
  · rw [h2]; exact h1
  · rw [h2]; exact hasPrefix_append_right _ _ _ h1

/-- C20 at a concrete input: the file written for an empty source. -/
theorem C20_witness :
    (generateCursorRules (oneFileEnv []) (str "src") (str "dst")).written
      = [(str "dst/a.gen.mdc", cursorHeader (str "a"))] ∧
    ∀ pc ∈ (generateCursorRules (oneFileEnv []) (str "src") (str "dst")).written,
      hasPrefix pc.2 (str "---") = true ∧ pc.2.getLast? = some 10 :=
  ⟨by decide, C20_cursor_file_shape (oneFileEnv []) (str "src") (str "dst")⟩

/-! ## C12: a source that cannot be read -/

/-- C12 (fails on the code): when the glob lists `src/a.md` and the file cannot
be opened, `generateWindsurfRules`, `generateClaudeRules` and
`generateAgentRules` return no error and write a file that holds the banner
only; `generateCursorRules` returns an error on the same input. -/
theorem C12_open_failure_is_swallowed :
    generateWindsurfRules unreadableEnv [str "src"] (str "out")
      = ⟨[(str "out", windsurfBanner)], false⟩ ∧
    generateClaudeRules unreadableEnv [str "src"] (str "out")
      = ⟨[(str "out", claudeBanner)], false⟩ ∧
    generateAgentRules unreadableEnv [str "src"] (str "out")
      = ⟨[(str "out", agentBanner)], false⟩ ∧
    generateCursorRules unreadableEnv (str "src") (str "dst") = ⟨[], true⟩ := by
  decide

/-! ## C16: a document of frontmatter and sentinel only -/

/-- C16 (fails on the code): for a document that holds a YAML block and a
well-formed sentinel comment and nothing else, the line loop of each
concatenation generator emits the sentinel line, so the transformed body is
not empty; the generator returns no error. -/
theorem C16_sentinel_after_yaml_is_emitted :
    isAgentrulesComment (str "<!-- @agentrules: short -->") = true ∧
    windsurfLoop .first (scanFile yamlSentinelDoc) = str "<!-- @agentrules: short -->\n" ∧
    claudeLoop .first (scanFile yamlSentinelDoc) = str "<!-- @agentrules: short -->\n" ∧
    agentLoop .first (scanFile yamlSentinelDoc) = str "<!-- @agentrules: short -->\n" ∧
    generateClaudeRules (oneFileEnv yamlSentinelDoc) [str "src"] (str "out")
      = ⟨[(str "out",
            claudeBanner ++ str "<!-- @agentrules: short -->\n" ++ str "\n---\n\n")], false⟩ := by
  decide

/-! ## C14: the end-to-end scenario -/

set_option maxRecDepth 100000 in
/-- C14 (as stated, fails): in the scenario the output of `generateClaudeRules`
holds `Body tool.` before `Body shared.`, and it holds the sentinel line. -/
theorem C14_counterexample :
    (generateClaudeRules scenarioEnv [str "shared", str "claude-code"] (str "CLAUDE.md")).written.map
        (fun pc => (hasSentinelLine pc.2, pc.2))
      = [(true,
          claudeBanner
            ++ str "<!-- @agentrules: short -->\n\nBody tool.\n" ++ str "\n---\n\n"
            ++ str "\nBody shared.\n" ++ str "\n---\n\n")] := by
  decide

set_option maxRecDepth 100000 in
/-- C14 (amended): in the scenario `generateClaudeRules` returns no error and
writes one file, which consists of the banner, then the text of
`claude-code/02.md` ending with `Body tool.`, then the separator, then the text
of `shared/01.md` ending with `Body shared.`, then the separator; no line of
the file is `# H`. -/
theorem C14_scenario_output :
    ∃ content a b : Bytes,
      generateClaudeRules scenarioEnv [str "shared", str "claude-code"] (str "CLAUDE.md")
        = ⟨[(str "CLAUDE.md", content)], false⟩ ∧
      content = claudeBanner ++ a ++ str "Body tool.\n" ++ str "\n---\n\n"
        ++ b ++ str "Body shared.\n" ++ str "\n---\n\n" ∧
      (splitLines content).contains (str "# H") = false :=
  ⟨claudeBanner ++ str "<!-- @agentrules: short -->\n\nBody tool.\n" ++ str "\n---\n\n"
      ++ str "\nBody shared.\n" ++ str "\n---\n\n",
    str "<!-- @agentrules: short -->\n\n", str "\n", by decide, by decide, by decide⟩

/-! ## C11: the three generators are one routine -/

/-- The collecting loop of the generators computes `collectFiles`. -/
theorem collect_foldlM (env : Env) (srcDirs : List Bytes) (init : List Bytes) :
    srcDirs.foldlM (fun allFiles srcDir => (env.glob srcDir).map (allFiles ++ ·)) init
      = (collectFiles env srcDirs).map (init ++ ·) := by
  induction srcDirs generalizing init with
  | nil => simp [collectFiles]
  | cons d ds ih =>
    simp only [List.foldlM, collectFiles]
    cases env.glob d with
    | none => simp
    | some files =>
      simp only [Option.map_some', Option.bind_eq_bind, Option.some_bind]
      rw [ih]
      cases collectFiles env ds <;> simp

theorem windsurfLoop_body_eq (evs : List (Option Bytes)) :
    windsurfLoop .body evs = emitUntilFail evs := by
  induction evs with
  | nil => simp [windsurfLoop, emitUntilFail]
  | cons e evs ih =>
    cases e with
    | none => simp [windsurfLoop, emitUntilFail]
    | some l => rw [windsurfLoop_body_some, ih, emitUntilFail]

theorem windsurfLoop_yaml_eq (evs : List (Option Bytes)) :
    windsurfLoop .yaml evs = emitUntilFail (afterYamlBlock evs) := by
  induction evs with
  | nil => simp [windsurfLoop, emitUntilFail, afterYamlBlock]
  | cons e evs ih =>
    cases e with
    | none => simp [windsurfLoop, afterYamlBlock, windsurfLoop_body_eq]
    | some l =>
      rw [windsurfLoop_yaml_some, afterYamlBlock]
      split
      · exact windsurfLoop_body_eq evs
      · exact ih

/-- The line loop of `generateWindsurfRules` computes the line-level transform. -/
theorem windsurfLoop_eq_lineTransform (data : Bytes) :
    windsurfLoop .first (scanFile data) = lineTransform data := by
  unfold lineTransform
  cases scanFile data with
  | nil => simp [windsurfLoop]
  | cons e evs =>
    cases e with
    | none => simp [windsurfLoop]
    | some l =>
      simp only [windsurfLoop_first_some, windsurfLoop_body_eq, windsurfLoop_yaml_eq,
        emitUntilFail]

theorem generateWindsurfRules_routine (env : Env) (srcDirs : List Bytes) (dst : Bytes) :
    generateWindsurfRules env srcDirs dst
      = concatenationRoutine windsurfBanner (str "\n---\n\n") env srcDirs dst := by
  unfold generateWindsurfRules concatenationRoutine
  rw [collect_foldlM]
  cases collectFiles env srcDirs with
  | none => rfl
  | some allFiles =>
    simp only [Option.map_some', List.nil_append]
    rw [foldl_blocks env.readFile (fun data => windsurfLoop .first (scanFile data))]
    simp only [windsurfLoop_eq_lineTransform]
    rfl

theorem generateClaudeRules_routine (env : Env) (srcDirs : List Bytes) (dst : Bytes) :
    generateClaudeRules env srcDirs dst
      = concatenationRoutine claudeBanner (str "\n---\n\n") env srcDirs dst := by
  unfold generateClaudeRules concatenationRoutine
  rw [collect_foldlM]
  cases collectFiles env srcDirs with
  | none => rfl
  | some allFiles =>
    simp only [Option.map_some', List.nil_append]
    rw [foldl_blocks env.readFile (fun data => claudeLoop .first (scanFile data))]
    simp only [claudeLoop_eq_windsurfLoop, windsurfLoop_eq_lineTransform]
    rfl

theorem generateAgentRules_routine (env : Env) (srcDirs : List Bytes) (dst : Bytes) :
    generateAgentRules env srcDirs dst
      = concatenationRoutine agentBanner (str "\n") env srcDirs dst := by
  unfold generateAgentRules concatenationRoutine
  rw [collect_foldlM]
  cases collectFiles env srcDirs with
  | none => rfl
  | some allFiles =>
    simp only [Option.map_some', List.nil_append]
    rw [foldl_blocks env.readFile (fun data => agentLoop .first (scanFile data))]
    simp only [agentLoop_eq_windsurfLoop, windsurfLoop_eq_lineTransform]
    rfl

/-- C11: for every file system and every argument, `generateWindsurfRules`,
`generateClaudeRules` and `generateAgentRules` are the one routine
`concatenationRoutine` (collect, sort, banner, then transformed text and
separator per file, trailing newline ensured) at their own banner, separator
and destination: the collection, the order and the line-level transform are the
same in the three. -/
theorem C11_generators_are_one_routine (env : Env) (srcDirs : List Bytes) (dst : Bytes) :
    generateWindsurfRules env srcDirs dst
      = concatenationRoutine
          (str "# .windsurfrules\n<!-- generated; DO NOT EDIT. Edit files in agentrules/shared. -->\n\n")
          (str "\n---\n\n") env srcDirs dst ∧
    generateClaudeRules env srcDirs dst
      = concatenationRoutine
          (str "# CLAUDE.md\n<!-- generated; DO NOT EDIT. Edit files in agentrules/shared. -->\n\n")
          (str "\n---\n\n") env srcDirs dst ∧
    generateAgentRules env srcDirs dst
      = concatenationRoutine (str "<!-- This is used by Codex to find instructions. -->\n")
          (str "\n") env srcDirs dst := by
  refine ⟨?_, ?_, ?_⟩
  · rw [generateWindsurfRules_routine]
    have h : windsurfBanner
        = str "# .windsurfrules\n<!-- generated; DO NOT EDIT. Edit files in agentrules/shared. -->\n\n" := by
      decide
    rw [h]
  · rw [generateClaudeRules_routine]
    have h : claudeBanner
        = str "# CLAUDE.md\n<!-- generated; DO NOT EDIT. Edit files in agentrules/shared. -->\n\n" := by
      decide
    rw [h]
  · rw [generateAgentRules_routine]
    rfl

set_option maxRecDepth 100000 in
/-- C11 at a concrete input: the routine at the banner and separator of
`CLAUDE.md` on the scenario of the specification. -/
theorem C11_witness :
    concatenationRoutine
        (str "# CLAUDE.md\n<!-- generated; DO NOT EDIT. Edit files in agentrules/shared. -->\n\n")
        (str "\n---\n\n") scenarioEnv [str "shared", str "claude-code"] (str "CLAUDE.md")
      = ⟨[(str "CLAUDE.md",
            claudeBanner
              ++ str "<!-- @agentrules: short -->\n\nBody tool.\n" ++ str "\n---\n\n"
              ++ str "\nBody shared.\n" ++ str "\n---\n\n")], false⟩ ∧
    generateClaudeRules scenarioEnv [str "shared", str "claude-code"] (str "CLAUDE.md")
      = concatenationRoutine
          (str "# CLAUDE.md\n<!-- generated; DO NOT EDIT. Edit files in agentrules/shared. -->\n\n")
          (str "\n---\n\n") scenarioEnv [str "shared", str "claude-code"] (str "CLAUDE.md") :=
  ⟨by decide,
   (C11_generators_are_one_routine scenarioEnv [str "shared", str "claude-code"]
      (str "CLAUDE.md")).2.1⟩

/-! ## C18: the order of the directory list -/

/-- Permuting the directories permutes the collected files, and a glob fails
for one order exactly when it fails for the other. -/
theorem collectFiles_perm (env : Env) (dirs dirs' : List Bytes) (h : dirs.Perm dirs') :
    (collectFiles env dirs = none ∧ collectFiles env dirs' = none) ∨
    ∃ l l', collectFiles env dirs = some l ∧ collectFiles env dirs' = some l' ∧ l.Perm l' := by
  induction h with
  | nil => exact Or.inr ⟨[], [], rfl, rfl, List.Perm.refl _⟩
  | cons d _ ih =>
    simp only [collectFiles]
    cases env.glob d with
    | none => exact Or.inl ⟨rfl, rfl⟩
    | some files =>
      rcases ih with ⟨h1, h2⟩ | ⟨l, l', h1, h2, hp⟩
      · exact Or.inl (by simp [h1, h2])
      · exact Or.inr ⟨files ++ l, files ++ l', by simp [h1], by simp [h2],
          List.Perm.append_left _ hp⟩
  | swap d e ds =>
    simp only [collectFiles]
    cases env.glob d <;> cases env.glob e <;> cases collectFiles env ds <;>
      simp [← List.append_assoc, List.perm_append_comm.append_right]
  | trans _ _ ih1 ih2 =>
    rcases ih1 with ⟨h1, h2⟩ | ⟨l, l', h1, h2, hp⟩
    · rcases ih2 with ⟨_, h4⟩ | ⟨m, m', h3, _, _⟩
      · exact Or.inl ⟨h1, h4⟩
      · rw [h2] at h3; cases h3
    · rcases ih2 with ⟨h3, _⟩ | ⟨m, m', h3, h4, hq⟩
      · rw [h2] at h3; cases h3
      · rw [h2] at h3
        cases h3
        exact Or.inr ⟨l, m', h1, h4, hp.trans hq⟩

/-- `sort.Strings` gives the same list for two arrangements of the same strings. -/
theorem sortStrings_eq_of_perm (l l' : List Bytes) (h : l.Perm l') :
    sortStrings l = sortStrings l' := by
  haveI : IsAntisymm Bytes (fun a b => strLE a b = true) := ⟨strLE_antisymm⟩
  exact List.eq_of_perm_of_sorted
    (((sortStrings_perm l).trans h).trans (sortStrings_perm l').symm)
    (sortStrings_sorted l) (sortStrings_sorted l')

theorem concatenationRoutine_perm (banner sep : Bytes) (env : Env) (dirs dirs' : List Bytes)
    (dst : Bytes) (h : dirs.Perm dirs') :
    concatenationRoutine banner sep env dirs dst
      = concatenationRoutine banner sep env dirs' dst := by
  unfold concatenationRoutine
  rcases collectFiles_perm env dirs dirs' h with ⟨h1, h2⟩ | ⟨l, l', h1, h2, hp⟩
  · rw [h1, h2]
  · rw [h1, h2]
    simp only [sortStrings_eq_of_perm l l' hp]

/-- C18: for every file system, every list of source directories and every
rearrangement of it, each concatenation generator returns the same outcome and
writes the same bytes: the collected paths are sorted together. -/
theorem C18_directory_order_irrelevant (env : Env) (srcDirs srcDirs' : List Bytes) (dst : Bytes)
    (h : srcDirs.Perm srcDirs') :
    generateWindsurfRules env srcDirs dst = generateWindsurfRules env srcDirs' dst ∧
    generateClaudeRules env srcDirs dst = generateClaudeRules env srcDirs' dst ∧
    generateAgentRules env srcDirs dst = generateAgentRules env srcDirs' dst := by
  refine ⟨?_, ?_, ?_⟩
  · rw [generateWindsurfRules_routine, generateWindsurfRules_routine]
    exact concatenationRoutine_perm _ _ env _ _ dst h
  · rw [generateClaudeRules_routine, generateClaudeRules_routine]
    exact concatenationRoutine_perm _ _ env _ _ dst h
  · rw [generateAgentRules_routine, generateAgentRules_routine]
    exact concatenationRoutine_perm _ _ env _ _ dst h

/-- C18 at a concrete input: the scenario with the two directories in either
order. -/
theorem C18_witness :
    generateWindsurfRules scenarioEnv [str "shared", str "claude-code"] (str "out")
      = generateWindsurfRules scenarioEnv [str "claude-code", str "shared"] (str "out") ∧
    generateClaudeRules scenarioEnv [str "shared", str "claude-code"] (str "out")
      = generateClaudeRules scenarioEnv [str "claude-code", str "shared"] (str "out") ∧
    generateAgentRules scenarioEnv [str "shared", str "claude-code"] (str "out")
      = generateAgentRules scenarioEnv [str "claude-code", str "shared"] (str "out") :=
  C18_directory_order_irrelevant scenarioEnv [str "shared", str "claude-code"]
    [str "claude-code", str "shared"] (str "out") (List.Perm.swap _ _ _)

/-! ## C15: banner and separators -/

/-- The block of a file that can be opened stands in the concatenated text,
after the banner. -/
theorem concatText_block (banner sep : Bytes) (loop : Mode → List (Option Bytes) → Bytes)
    (env : Env) (order : List Bytes) (file data : Bytes) (hf : file ∈ order)
    (hr : env.readFile file = some data) :
    ∃ pre post, concatText banner sep loop env order
      = banner ++ pre ++ (loop .first (scanFile data) ++ sep) ++ post := by
  obtain ⟨o1, o2, ho⟩ := List.append_of_mem hf
  subst ho
  refine ⟨o1.flatMap (fun file =>
      match env.readFile file with
      | none => []
      | some data => loop .first (scanFile data) ++ sep),
    o2.flatMap (fun file =>
      match env.readFile file with
      | none => []
      | some data => loop .first (scanFile data) ++ sep), ?_⟩
  simp [concatText, List.flatMap_append, hr]

/-- What a concatenation generator writes has the banner first and, for every
file that can be opened, its block after the banner. -/
theorem written_shape (banner sep : Bytes) (loop : Mode → List (Option Bytes) → Bytes)
    (env : Env) (order : List Bytes) :
    hasPrefix (ensureTrailingNewline (concatText banner sep loop env order)) banner = true ∧
    ∀ file ∈ order, ∀ data, env.readFile file = some data →
      ∃ pre post, ensureTrailingNewline (concatText banner sep loop env order)
        = banner ++ pre ++ (loop .first (scanFile data) ++ sep) ++ post := by
  constructor
  · rcases ensureTrailingNewline_eq_or (concatText banner sep loop env order) with h | h
    · rw [h]; exact hasPrefix_append _ _
    · rw [h]; exact hasPrefix_append_right _ _ _ (hasPrefix_append _ _)
  · intro file hf data hr
    obtain ⟨pre, post, h⟩ := concatText_block banner sep loop env order file data hf hr
    rcases ensureTrailingNewline_eq_or (concatText banner sep loop env order) with h2 | h2
    · exact ⟨pre, post, by rw [h2, h]⟩
    · exact ⟨pre, post ++ [10], by rw [h2, h]; simp⟩

/-- C15: when every glob succeeds and the destination can be written, the file
each concatenation generator writes begins with the banner of its variant, and
for every collected file that can be opened it holds, after the banner, the
transformed text of the file followed by the separator of the variant:
`\n---\n\n` for Windsurf and Claude, `\n` for Agents. -/
theorem C15_banner_first_separator_after_each_file (env : Env) (srcDirs : List Bytes)
    (dst : Bytes) (lists : List (List Bytes))
    (hglob : List.Forall₂ (fun d l => env.glob d = some l) srcDirs lists)
    (hw : env.writeFile dst = true) :
    (∃ content, generateWindsurfRules env srcDirs dst = ⟨[(dst, content)], false⟩ ∧
      hasPrefix content
        (str "# .windsurfrules\n"
          ++ str "<!-- generated; DO NOT EDIT. Edit files in agentrules/shared. -->\n\n") = true ∧
      ∀ file ∈ lists.flatten, ∀ data, env.readFile file = some data →
        ∃ pre post, content
          = (str "# .windsurfrules\n"
              ++ str "<!-- generated; DO NOT EDIT. Edit files in agentrules/shared. -->\n\n")
            ++ pre ++ (windsurfLoop .first (scanFile data) ++ str "\n---\n\n") ++ post) ∧
    (∃ content, generateClaudeRules env srcDirs dst = ⟨[(dst, content)], false⟩ ∧
      hasPrefix content
        (str "# CLAUDE.md\n"
          ++ str "<!-- generated; DO NOT EDIT. Edit files in agentrules/shared. -->\n\n") = true ∧
      ∀ file ∈ lists.flatten, ∀ data, env.readFile file = some data →
        ∃ pre post, content
          = (str "# CLAUDE.md\n"
              ++ str "<!-- generated; DO NOT EDIT. Edit files in agentrules/shared. -->\n\n")
            ++ pre ++ (claudeLoop .first (scanFile data) ++ str "\n---\n\n") ++ post) ∧
    (∃ content, generateAgentRules env srcDirs dst = ⟨[(dst, content)], false⟩ ∧
      hasPrefix content (str "<!-- This is used by Codex to find instructions. -->\n") = true ∧
      ∀ file ∈ lists.flatten, ∀ data, env.readFile file = some data →
        ∃ pre post, content
          = str "<!-- This is used by Codex to find instructions. -->\n"
            ++ pre ++ (agentLoop .first (scanFile data) ++ str "\n") ++ post) := by
  refine ⟨⟨_, generateWindsurfRules_eq env srcDirs dst lists hglob hw, ?_, ?_⟩,
    ⟨_, generateClaudeRules_eq env srcDirs dst lists hglob hw, ?_, ?_⟩,
    ⟨_, generateAgentRules_eq env srcDirs dst lists hglob hw, ?_, ?_⟩⟩
  · exact (written_shape windsurfBanner _ windsurfLoop env _).1
  · intro file hf data hr
    exact (written_shape windsurfBanner _ windsurfLoop env _).2 file
      ((mem_sortStrings _ _).2 hf) data hr
  · exact (written_shape claudeBanner _ claudeLoop env _).1
  · intro file hf data hr
    exact (written_shape claudeBanner _ claudeLoop env _).2 file
      ((mem_sortStrings _ _).2 hf) data hr
  · exact (written_shape agentBanner _ agentLoop env _).1
  · intro file hf data hr
    exact (written_shape agentBanner _ agentLoop env _).2 file
      ((mem_sortStrings _ _).2 hf) data hr

/-- C15 at a concrete input: the Agents variant on the scenario of the
specification. -/
theorem C15_witness :
    ∃ content,
      generateAgentRules scenarioEnv [str "shared", str "claude-code"] (str "AGENTS.md")
        = ⟨[(str "AGENTS.md", content)], false⟩ ∧
      hasPrefix content (str "<!-- This is used by Codex to find instructions. -->\n") = true ∧
      ∀ file ∈ [[str "shared/01.md"], [str "claude-code/02.md"]].flatten, ∀ data,
        scenarioEnv.readFile file = some data →
        ∃ pre post, content
          = str "<!-- This is used by Codex to find instructions. -->\n"
            ++ pre ++ (agentLoop .first (scanFile data) ++ str "\n") ++ post :=
  (C15_banner_first_separator_after_each_file scenarioEnv [str "shared", str "claude-code"]
    (str "AGENTS.md") [[str "shared/01.md"], [str "claude-code/02.md"]]
    (List.Forall₂.cons (by decide) (List.Forall₂.cons (by decide) List.Forall₂.nil))
    (by decide)).2.2

/-! ## C19: unterminated frontmatter -/

theorem splitLines_no_newline (l : Bytes) (h : 10 ∉ l) (hne : l ≠ []) : splitLines l = [l] := by
  induction l with
  | nil => exact absurd rfl hne
  | cons b l ih =>
    have hb : b ≠ 10 := fun hb => h (by simp [hb])
    have hl : 10 ∉ l := fun hl => h (List.mem_cons_of_mem _ hl)
    by_cases hl2 : l = []
    · subst hl2
      simp [splitLines, hb]
    · simp [splitLines, hb, ih hl hl2]

/-- Inside frontmatter that no line closes, the loop emits nothing. -/
theorem windsurfLoop_yaml_unterminated (ls : List Bytes)
    (h : ∀ x ∈ ls, hasPrefix x (str "---") = false) :
    windsurfLoop .yaml (ls.map some) = [] := by
  induction ls with
  | nil => simp [windsurfLoop]
  | cons l ls ih =>
    rw [List.map_cons, windsurfLoop_yaml_some, h l (List.mem_cons_self _ _)]
    exact ih (fun x hx => h x (List.mem_cons_of_mem _ hx))

/-- C19 (as stated, fails): the document `longYamlDoc` begins with `---` and has
no later line that starts with `---`, and each concatenation generator emits
the first `maxScanTokenSize` bytes of its second line: after the call of `Scan`
that fails inside the frontmatter loop, the outer loop calls `Scan` again and
receives the content of the buffer. -/
theorem C19_counterexample :
    splitLines longYamlDoc = [str "---", List.replicate maxScanTokenSize 97] ∧
    hasPrefix (List.replicate maxScanTokenSize 97) (str "---") = false ∧
    windsurfLoop .first (scanFile longYamlDoc)
      = List.replicate maxScanTokenSize 97 ++ str "\n" ∧
    claudeLoop .first (scanFile longYamlDoc)
      = List.replicate maxScanTokenSize 97 ++ str "\n" ∧
    agentLoop .first (scanFile longYamlDoc)
      = List.replicate maxScanTokenSize 97 ++ str "\n" := by
  have hne : List.replicate maxScanTokenSize 97 ≠ [] := by
    intro h
    have h2 := congrArg List.length h
    rw [List.length_replicate, List.length_nil] at h2
    exact absurd h2 (by decide)
  have hmem : (10 : Nat) ∉ List.replicate maxScanTokenSize 97 := by
    intro h
    exact absurd (List.eq_of_mem_replicate h) (by decide)
  have h1 : splitLines longYamlDoc = [str "---", List.replicate maxScanTokenSize 97] := by
    have h2 : longYamlDoc = str "---" ++ 10 :: List.replicate maxScanTokenSize 97 := rfl
    rw [h2, splitLines_append_newline _ _ (by decide), splitLines_no_newline _ hmem hne]
  have hpre : hasPrefix (List.replicate maxScanTokenSize 97) (str "---") = false := by
    have h3 : List.replicate maxScanTokenSize 97
        = 97 :: List.replicate (maxScanTokenSize - 1) 97 := rfl
    rw [h3]
    rfl
  have hlen : ¬ (List.replicate maxScanTokenSize 97).length < maxScanTokenSize := by
    rw [List.length_replicate]
    exact Nat.lt_irrefl _
  have htake : (List.replicate maxScanTokenSize 97).take maxScanTokenSize
      = List.replicate maxScanTokenSize 97 :=
    List.take_of_length_le (by rw [List.length_replicate])
  have hcr : dropCR (List.replicate maxScanTokenSize 97) = List.replicate maxScanTokenSize 97 := by
    unfold dropCR
    rw [if_neg]
    intro h
    exact absurd (List.eq_of_mem_replicate (List.mem_of_getLast?_eq_some h)) (by decide)
  have hscan : scanFile longYamlDoc
      = [some (str "---"), none, some (List.replicate maxScanTokenSize 97)] := by
    have h4 : (str "---").length < maxScanTokenSize := by decide
    have h5 : dropCR (str "---") = str "---" := by decide
    rw [scanFile, h1, scanEvents, if_pos h4, scanEvents, if_neg hlen, htake, hcr, h5]
  have hw : windsurfLoop .first (scanFile longYamlDoc)
      = List.replicate maxScanTokenSize 97 ++ str "\n" := by
    rw [hscan, windsurfLoop_first_some, if_neg (by decide), if_pos (by decide)]
    simp [windsurfLoop]
  exact ⟨h1, hpre, hw, by rw [claudeLoop_eq_windsurfLoop, hw],
    by rw [agentLoop_eq_windsurfLoop, hw]⟩

/-- C19 (amended): for every document that the scanner reads to its end (no
line reaches the token limit), whose first line starts with `---` and none of
whose later lines starts with `---`, the line loop of each concatenation
generator emits nothing; and when that document is the only collected file and
the destination can be written, each generator returns no error and writes the
banner followed by the separator. -/
theorem C19_unterminated_frontmatter (data l : Bytes) (ls : List Bytes)
    (hs : scanFile data = (l :: ls).map some)
    (hl : hasPrefix l (str "---") = true)
    (hls : ∀ x ∈ ls, hasPrefix x (str "---") = false) :
    (windsurfLoop .first (scanFile data) = [] ∧
      claudeLoop .first (scanFile data) = [] ∧
      agentLoop .first (scanFile data) = []) ∧
    ∀ (env : Env) (srcDirs : List Bytes) (dst file : Bytes),
      collectFiles env srcDirs = some [file] → env.readFile file = some data →
      env.writeFile dst = true →
      generateWindsurfRules env srcDirs dst
        = ⟨[(dst, ensureTrailingNewline (windsurfBanner ++ str "\n---\n\n"))], false⟩ ∧
      generateClaudeRules env srcDirs dst
        = ⟨[(dst, ensureTrailingNewline (claudeBanner ++ str "\n---\n\n"))], false⟩ ∧
      generateAgentRules env srcDirs dst
        = ⟨[(dst, ensureTrailingNewline (agentBanner ++ str "\n"))], false⟩ := by
  have hw : windsurfLoop .first (scanFile data) = [] := by
    rw [hs, List.map_cons, windsurfLoop_first_some, if_neg (by simp [not_heading_of_yaml l hl]),
      if_pos hl]
    exact windsurfLoop_yaml_unterminated ls hls
  have ht : lineTransform data = [] := by rw [← windsurfLoop_eq_lineTransform, hw]
  refine ⟨⟨hw, by rw [claudeLoop_eq_windsurfLoop, hw], by rw [agentLoop_eq_windsurfLoop, hw]⟩, ?_⟩
  intro env srcDirs dst file hc hr hwr
  have hsort : sortStrings [file] = [file] := by simp [sortStrings]
  refine ⟨?_, ?_, ?_⟩
  · rw [generateWindsurfRules_routine]
    simp [concatenationRoutine, hc, hwr, hsort, hr, ht]
  · rw [generateClaudeRules_routine]
    simp [concatenationRoutine, hc, hwr, hsort, hr, ht]
  · rw [generateAgentRules_routine]
    simp [concatenationRoutine, hc, hwr, hsort, hr, ht]

/-- C19 (amended) at a concrete input: frontmatter opened by `---` and never
closed. -/
theorem C19_witness :
    (windsurfLoop .first (scanFile (str "---\ntitle: x\nBody\n")) = [] ∧
      claudeLoop .first (scanFile (str "---\ntitle: x\nBody\n")) = [] ∧
      agentLoop .first (scanFile (str "---\ntitle: x\nBody\n")) = []) ∧
    generateAgentRules (oneFileEnv (str "---\ntitle: x\nBody\n")) [str "src"] (str "out")
      = ⟨[(str "out", ensureTrailingNewline (agentBanner ++ str "\n"))], false⟩ :=
  ⟨(C19_unterminated_frontmatter (str "---\ntitle: x\nBody\n") (str "---")
      [str "title: x", str "Body"] (by decide) (by decide) (by decide)).1,
   ((C19_unterminated_frontmatter (str "---\ntitle: x\nBody\n") (str "---")
      [str "title: x", str "Body"] (by decide) (by decide) (by decide)).2
      (oneFileEnv (str "---\ntitle: x\nBody\n")) [str "src"] (str "out") (str "src/a.md")
      (by decide) (by decide) (by decide)).2.2⟩

/-! ## Paths below `agentrules` and paths elsewhere -/

theorem hasPrefix_iff (p q : Bytes) : hasPrefix p q = true ↔ ∃ t, p = q ++ t := by
  induction q generalizing p with
  | nil => cases p <;> simp [hasPrefix]
  | cons b q ih =>
    cases p with
    | nil => simp [hasPrefix]
    | cons a p =>
      simp only [hasPrefix, Bool.and_eq_true, beq_iff_eq, ih, List.cons_append,
        List.cons.injEq]
      constructor
      · rintro ⟨h1, t, h2⟩
        exact ⟨t, h1, h2⟩
      · rintro ⟨t, h1, h2⟩
        exact ⟨h1, t, h2⟩

theorem hasPrefix_cancel (r a b : Bytes) : hasPrefix (r ++ a) (r ++ b) = hasPrefix a b := by
  induction r with
  | nil => rfl
  | cons x r ih => simp [hasPrefix, ih]

/-- Two paths that differ within their first two bytes have no common
extension. -/
theorem prefix_conflict (a c t u : Bytes) (ha : 2 ≤ a.length) (hc : 2 ≤ c.length)
    (hne : a.take 2 ≠ c.take 2) : a ++ t ≠ c ++ u := by
  intro h
  have h2 := congrArg (List.take 2) h
  rw [List.take_append_of_le_length ha, List.take_append_of_le_length hc] at h2
  exact hne h2

/-- A path `root ++ x` lies below `agentrules` exactly when `x` starts with
`/agentrules/`. -/
theorem isSource_append (root x : Bytes) :
    isSource root (root ++ x) = hasPrefix x (str "/agentrules/") := by
  unfold isSource
  exact hasPrefix_cancel root x _

/-- A path `root ++ c ++ u` whose part `c` differs from `/agentrules/` within
its first two bytes does not lie below `agentrules`. -/
theorem not_isSource_append (root c u : Bytes) (hc : 2 ≤ c.length)
    (hne : (str "/agentrules/").take 2 ≠ c.take 2) : isSource root (root ++ (c ++ u)) = false := by
  rw [isSource_append]
  cases h : hasPrefix (c ++ u) (str "/agentrules/") with
  | false => rfl
  | true =>
    obtain ⟨v, hv⟩ := (hasPrefix_iff _ _).1 h
    exact absurd hv.symm (prefix_conflict _ _ v u (by decide) hc hne)

/-- A match of `root/agentrules/name/*.md` lies below `agentrules`. -/
theorem isSource_of_isMdChild (root name p : Bytes)
    (h : isMdChild (root ++ str "/agentrules/" ++ name) p = true) : isSource root p = true := by
  unfold isMdChild at h
  simp only [Bool.and_eq_true] at h
  obtain ⟨t, ht⟩ := (hasPrefix_iff _ _).1 h.1
  have h2 : p = (root ++ str "/agentrules/") ++ (name ++ (str "/" ++ t)) := by
    rw [ht]
    simp only [List.append_assoc]
  unfold isSource
  rw [h2]
  exact hasPrefix_append _ _

/-- Nothing in or below `root/.cursor/rules` lies below `agentrules`. -/
theorem not_isUnder_of_isSource (root p : Bytes) (h : isSource root p = true) :
    isUnder (root ++ str "/.cursor/rules") p = false := by
  obtain ⟨t, ht⟩ := (hasPrefix_iff _ _).1 h
  have hp : p = root ++ (str "/agentrules/" ++ t) := by rw [ht, List.append_assoc]
  cases hu : isUnder (root ++ str "/.cursor/rules") p with
  | false => rfl
  | true =>
    unfold isUnder at hu
    simp only [Bool.or_eq_true, beq_iff_eq] at hu
    rcases hu with h1 | h1
    · rw [hp] at h1
      have h2 := List.append_cancel_left h1
      exact absurd (h2.trans (List.append_nil _).symm)
        (prefix_conflict _ _ t [] (by decide) (by decide) (by decide))
    · obtain ⟨u, hu⟩ := (hasPrefix_iff _ _).1 h1
      rw [hp, List.append_assoc, List.append_assoc] at hu
      have h2 := List.append_cancel_left hu
      exact absurd h2 (prefix_conflict _ _ t (str "/" ++ u) (by decide) (by decide) (by decide))

theorem srcPart_cons_of_not (root : Bytes) (w : Bytes × Bytes) (fs : FileSystem)
    (h : isSource root w.1 = false) : srcPart root (w :: fs) = srcPart root fs := by
  simp [srcPart, List.filter_cons, h]

theorem applyWrites_eq (fs : FileSystem) (ws : List (Bytes × Bytes)) :
    applyWrites fs ws = ws.reverse ++ fs := by
  induction ws generalizing fs with
  | nil => rfl
  | cons w ws ih =>
    simp only [applyWrites, List.foldl_cons] at ih ⊢
    rw [ih]
    simp

theorem applyWrites_append (fs : FileSystem) (ws ws' : List (Bytes × Bytes)) :
    applyWrites (applyWrites fs ws) ws' = applyWrites fs (ws ++ ws') := by
  simp [applyWrites]

/-- Writing files outside `agentrules` leaves the files below it as they are. -/
theorem srcPart_applyWrites (root : Bytes) (fs : FileSystem) (ws : List (Bytes × Bytes))
    (h : ∀ w ∈ ws, isSource root w.1 = false) :
    srcPart root (applyWrites fs ws) = srcPart root fs := by
  induction ws generalizing fs with
  | nil => rfl
  | cons w ws ih =>
    simp only [applyWrites, List.foldl_cons]
    have h1 := ih (w :: fs) (fun x hx => h x (List.mem_cons_of_mem _ hx))
    simp only [applyWrites] at h1
    rw [h1]
    exact srcPart_cons_of_not root w fs (h w (List.mem_cons_self _ _))

/-- Removing `root/.cursor/rules` leaves the files below `agentrules` as they are. -/
theorem srcPart_removeAll (root : Bytes) (fs : FileSystem) :
    srcPart root (removeAll fs (root ++ str "/.cursor/rules")) = srcPart root fs := by
  unfold srcPart removeAll
  rw [List.filter_filter]
  apply List.filter_congr
  intro e _
  by_cases h : isSource root e.1 = true
  · simp [h, not_isUnder_of_isSource root e.1 h]
  · simp [h]

theorem filter_map_filter (q s : Bytes → Bool) (hqs : ∀ p, q p = true → s p = true)
    (fs : FileSystem) :
    ((fs.filter (fun e => s e.1)).map Prod.fst).filter q = (fs.map Prod.fst).filter q := by
  induction fs with
  | nil => rfl
  | cons e fs ih =>
    by_cases hs : s e.1 = true
    · simp only [List.filter_cons, hs, if_true, List.map_cons, ih]
    · have hq : ¬ q e.1 = true := fun h => hs (hqs _ h)
      simp only [List.filter_cons, hs, hq, if_false, List.map_cons, ih, Bool.false_eq_true]

/-- The matches of a directory below `agentrules` depend only on the files
below `agentrules`. -/
theorem globMd_srcPart (root name : Bytes) (fs : FileSystem) :
    globMd (srcPart root fs) (root ++ str "/agentrules/" ++ name)
      = globMd fs (root ++ str "/agentrules/" ++ name) := by
  unfold globMd srcPart
  rw [filter_map_filter _ _ (isSource_of_isMdChild root name) fs]

theorem lookup_filter (s : Bytes → Bool) (p : Bytes) (fs : FileSystem) (h : s p = true) :
    (fs.filter (fun e => s e.1)).lookup p = fs.lookup p := by
  induction fs with
  | nil => rfl
  | cons e fs ih =>
    obtain ⟨k, v⟩ := e
    by_cases hk : p = k
    · subst hk
      simp [List.filter_cons, h, List.lookup_cons]
    · have hb : (p == k) = false := by simpa using hk
      by_cases hs : s k = true
      · simp [List.filter_cons, hs, List.lookup_cons, hb, ih]
      · simp [List.filter_cons, hs, List.lookup_cons, hb, ih]

theorem lookup_filter_none (s : Bytes → Bool) (p : Bytes) (fs : FileSystem) (h : s p = false) :
    (fs.filter (fun e => s e.1)).lookup p = none := by
  induction fs with
  | nil => rfl
  | cons e fs ih =>
    obtain ⟨k, v⟩ := e
    by_cases hs : s k = true
    · have hb : (p == k) = false := by
        have hne : p ≠ k := fun hpk => by rw [hpk, hs] at h; cases h
        simpa using hne
      simp [List.filter_cons, hs, List.lookup_cons, hb, ih]
    · simp [List.filter_cons, hs, ih]

/-- A file below `agentrules` is read from the files below `agentrules`. -/
theorem lookup_srcPart (root p : Bytes) (fs : FileSystem) (h : isSource root p = true) :
    (srcPart root fs).lookup p = fs.lookup p :=
  lookup_filter (isSource root) p fs h

/-! ## Generators read only what the globs list -/

theorem cursorLoop_congr (e1 e2 : Env) (dstDir : Bytes) (hw : e1.writeFile = e2.writeFile)
    (hj : e1.join = e2.join) (files : List Bytes)
    (hr : ∀ p ∈ files, e1.readFile p = e2.readFile p) (written : List (Bytes × Bytes)) :
    cursorLoop e1 dstDir files written = cursorLoop e2 dstDir files written := by
  induction files generalizing written with
  | nil => rfl
  | cons file files ih =>
    simp only [cursorLoop]
    rw [hr file (List.mem_cons_self _ _), hj, hw]
    cases e2.readFile file with
    | none => rfl
    | some content =>
      simp only
      split
      · exact ih (fun p hp => hr p (List.mem_cons_of_mem _ hp)) _
      · rfl

theorem generateCursorRules_congr (e1 e2 : Env) (srcDir dstDir : Bytes)
    (hm : e1.mkdirAll = e2.mkdirAll) (hw : e1.writeFile = e2.writeFile)
    (hj : e1.join = e2.join) (hg : e1.glob srcDir = e2.glob srcDir)
    (hr : ∀ l, e2.glob srcDir = some l → ∀ p ∈ l, e1.readFile p = e2.readFile p) :
    generateCursorRules e1 srcDir dstDir = generateCursorRules e2 srcDir dstDir := by
  unfold generateCursorRules
  rw [hm, hg]
  split
  · cases hg2 : e2.glob srcDir with
    | none => rfl
    | some files =>
      simp only
      exact cursorLoop_congr e1 e2 dstDir hw hj _
        (fun p hp => hr files hg2 p ((mem_sortStrings _ _).1 hp)) []
  · rfl

theorem collectFiles_congr (e1 e2 : Env) (dirs : List Bytes)
    (hg : ∀ d ∈ dirs, e1.glob d = e2.glob d) : collectFiles e1 dirs = collectFiles e2 dirs := by
  induction dirs with
  | nil => rfl
  | cons d ds ih =>
    simp only [collectFiles]
    rw [hg d (List.mem_cons_self _ _), ih (fun x hx => hg x (List.mem_cons_of_mem _ hx))]

/-- Every collected file is a match of one of the directories. -/
theorem mem_collectFiles (env : Env) (dirs : List Bytes) (all : List Bytes)
    (h : collectFiles env dirs = some all) (p : Bytes) (hp : p ∈ all) :
    ∃ d ∈ dirs, ∃ l, env.glob d = some l ∧ p ∈ l := by
  induction dirs generalizing all with
  | nil =>
    simp only [collectFiles, Option.some.injEq] at h
    subst h
    simp at hp
  | cons d ds ih =>
    simp only [collectFiles] at h
    cases hg : env.glob d with
    | none => rw [hg] at h; cases h
    | some files =>
      rw [hg] at h
      cases hc : collectFiles env ds with
      | none => rw [hc] at h; cases h
      | some rest =>
        rw [hc] at h
        simp only [Option.map_some', Option.some.injEq] at h
        subst h
        rcases List.mem_append.1 hp with h1 | h1
        · exact ⟨d, List.mem_cons_self _ _, files, hg, h1⟩
        · obtain ⟨d', hd', l, hl, hpl⟩ := ih rest hc h1
          exact ⟨d', List.mem_cons_of_mem _ hd', l, hl, hpl⟩

theorem concatenationRoutine_congr (banner sep : Bytes) (e1 e2 : Env) (dirs : List Bytes)
    (dst : Bytes) (hw : e1.writeFile = e2.writeFile)
    (hg : ∀ d ∈ dirs, e1.glob d = e2.glob d)
    (hr : ∀ d ∈ dirs, ∀ l, e2.glob d = some l → ∀ p ∈ l, e1.readFile p = e2.readFile p) :
    concatenationRoutine banner sep e1 dirs dst = concatenationRoutine banner sep e2 dirs dst := by
  unfold concatenationRoutine
  rw [collectFiles_congr e1 e2 dirs hg, hw]
  cases hc : collectFiles e2 dirs with
  | none => rfl
  | some all =>
    simp only
    have h : (sortStrings all).flatMap (fun file =>
          match e1.readFile file with
          | none => []
          | some data => lineTransform data ++ sep)
        = (sortStrings all).flatMap (fun file =>
          match e2.readFile file with
          | none => []
          | some data => lineTransform data ++ sep) := by
      apply List.flatMap_congr
      intro file hf
      obtain ⟨d, hd, l, hl, hpl⟩ := mem_collectFiles e2 dirs all hc file ((mem_sortStrings _ _).1 hf)
      rw [hr d hd l hl file hpl]
    rw [h]

/-- A match of a directory satisfies the pattern. -/
theorem isMdChild_of_mem_globMd (fs : FileSystem) (dir p : Bytes) (h : p ∈ globMd fs dir) :
    isMdChild dir p = true := by
  unfold globMd at h
  have h2 := List.mem_dedup.1 ((mem_sortStrings _ _).1 h)
  exact (List.mem_filter.1 h2).2

/-- In two states with the same files below `agentrules`, a generator sees the
same matches of a directory below `agentrules` and reads the same contents. -/
theorem envOf_agree (host : Host) (root name : Bytes) (fs fs' : FileSystem)
    (h : srcPart root fs = srcPart root fs') :
    (envOf host fs).glob (root ++ str "/agentrules/" ++ name)
        = (envOf host fs').glob (root ++ str "/agentrules/" ++ name) ∧
    ∀ l, (envOf host fs').glob (root ++ str "/agentrules/" ++ name) = some l →
      ∀ p ∈ l, (envOf host fs).readFile p = (envOf host fs').readFile p := by
  constructor
  · show some (globMd fs _) = some (globMd fs' _)
    rw [← globMd_srcPart root name fs, ← globMd_srcPart root name fs', h]
  · intro l hl p hp
    have hl2 : globMd fs' (root ++ str "/agentrules/" ++ name) = l := by
      simpa [envOf] using hl
    rw [← hl2] at hp
    have hs := isSource_of_isMdChild root name p (isMdChild_of_mem_globMd _ _ _ hp)
    show (if host.canRead p then fs.lookup p else none)
      = (if host.canRead p then fs'.lookup p else none)
    rw [← lookup_srcPart root p fs hs, ← lookup_srcPart root p fs' hs, h]

/-! ## The steps of `generateRules` -/

/-- A step run in two states with the same files below `agentrules`, when every
step depends on those files only and writes elsewhere: the runs fail or succeed
together and perform the same writes. -/
theorem runSteps_rel (host : Host) (root : Bytes) (steps : List (Env → Outcome))
    (hsrc : ∀ step ∈ steps, ∀ fs fs', srcPart root fs = srcPart root fs' →
      step (envOf host fs) = step (envOf host fs'))
    (hdst : ∀ step ∈ steps, ∀ fs, ∀ w ∈ (step (envOf host fs)).written,
      isSource root w.1 = false)
    (fs fs' : FileSystem) (h : srcPart root fs = srcPart root fs') :
    (runSteps host fs steps).2 = (runSteps host fs' steps).2 ∧
    ∃ ws, (∀ w ∈ ws, isSource root w.1 = false) ∧
      (runSteps host fs steps).1 = applyWrites fs ws ∧
      (runSteps host fs' steps).1 = applyWrites fs' ws := by
  induction steps generalizing fs fs' with
  | nil => exact ⟨rfl, [], by simp, rfl, rfl⟩
  | cons step rest ih =>
    have h1 := hsrc step (List.mem_cons_self _ _) fs fs' h
    have h2 := hdst step (List.mem_cons_self _ _) fs
    simp only [runSteps]
    rw [← h1]
    by_cases hf : (step (envOf host fs)).failed = true
    · rw [if_pos hf, if_pos hf]
      exact ⟨rfl, _, h2, rfl, rfl⟩
    · rw [if_neg hf, if_neg hf]
      have h3 : srcPart root (applyWrites fs (step (envOf host fs)).written)
          = srcPart root (applyWrites fs' (step (envOf host fs)).written) := by
        rw [srcPart_applyWrites root _ _ h2, srcPart_applyWrites root _ _ h2, h]
      obtain ⟨hflag, ws, hws, ha, hb⟩ := ih
        (fun s hs => hsrc s (List.mem_cons_of_mem _ hs))
        (fun s hs => hdst s (List.mem_cons_of_mem _ hs)) _ _ h3
      refine ⟨hflag, (step (envOf host fs)).written ++ ws, ?_, ?_, ?_⟩
      · intro w hw
        rcases List.mem_append.1 hw with h4 | h4
        · exact h2 w h4
        · exact hws w h4
      · rw [ha, applyWrites_append]
      · rw [hb, applyWrites_append]

theorem cursorStep_srcOnly (host : Host) (root name dst : Bytes) (fs fs' : FileSystem)
    (h : srcPart root fs = srcPart root fs') :
    generateCursorRules (envOf host fs) (root ++ str "/agentrules/" ++ name) dst
      = generateCursorRules (envOf host fs') (root ++ str "/agentrules/" ++ name) dst :=
  generateCursorRules_congr _ _ _ _ rfl rfl rfl (envOf_agree host root name fs fs' h).1
    (envOf_agree host root name fs fs' h).2

theorem cursorStep_writes (host : Host) (root src : Bytes) (fs : FileSystem) :
    ∀ w ∈ (generateCursorRules (envOf host fs) src (root ++ str "/.cursor/rules")).written,
      isSource root w.1 = false := by
  intro w hw
  obtain ⟨_, _, file, _, content, _, h⟩ := (generateCursorRules_spec _ _ _).1 w hw
  rw [h]
  show isSource root (root ++ str "/.cursor/rules" ++ str "/"
    ++ (cursorBase file ++ str ".gen.mdc")) = false
  rw [List.append_assoc, List.append_assoc]
  exact not_isSource_append root _ _ (by decide) (by decide)

theorem concatenationRoutine_writes (banner sep : Bytes) (env : Env) (dirs : List Bytes)
    (dst : Bytes) : ∀ w ∈ (concatenationRoutine banner sep env dirs dst).written, w.1 = dst := by
  unfold concatenationRoutine
  cases collectFiles env dirs with
  | none => simp
  | some all =>
    simp only
    split
    · simp
    · simp

theorem concatStep_srcOnly (banner sep : Bytes) (host : Host) (root a b dst : Bytes)
    (fs fs' : FileSystem) (h : srcPart root fs = srcPart root fs') :
    concatenationRoutine banner sep (envOf host fs)
        [root ++ str "/agentrules/" ++ a, root ++ str "/agentrules/" ++ b] dst
      = concatenationRoutine banner sep (envOf host fs')
        [root ++ str "/agentrules/" ++ a, root ++ str "/agentrules/" ++ b] dst := by
  apply concatenationRoutine_congr banner sep (envOf host fs) (envOf host fs') _ dst rfl
  · intro d hd
    simp only [List.mem_cons, List.mem_singleton, List.not_mem_nil, or_false] at hd
    rcases hd with hd | hd <;> subst hd
    · exact (envOf_agree host root a fs fs' h).1
    · exact (envOf_agree host root b fs fs' h).1
  · intro d hd
    simp only [List.mem_cons, List.mem_singleton, List.not_mem_nil, or_false] at hd
    rcases hd with hd | hd <;> subst hd
    · exact (envOf_agree host root a fs fs' h).2
    · exact (envOf_agree host root b fs fs' h).2

theorem lookup_rerun (fs : FileSystem) (c p : Bytes) (ws : List (Bytes × Bytes)) :
    (applyWrites (removeAll (applyWrites (removeAll fs c) ws) c) ws).lookup p
      = (applyWrites (removeAll fs c) ws).lookup p := by
  rw [applyWrites_eq, applyWrites_eq, List.lookup_append, List.lookup_append]
  cases hws : ws.reverse.lookup p with
  | some v => rfl
  | none =>
    simp only [Option.or]
    cases hu : isUnder c p with
    | true =>
      have hs : (fun q => !isUnder c q) p = false := by simp [hu]
      have h1 : (removeAll (ws.reverse ++ removeAll fs c) c).lookup p = none :=
        lookup_filter_none (fun q => !isUnder c q) p _ hs
      have h2 : (removeAll fs c).lookup p = none :=
        lookup_filter_none (fun q => !isUnder c q) p fs hs
      rw [h1, h2]
    | false =>
      have hs : (fun q => !isUnder c q) p = true := by simp [hu]
      have h1 : (removeAll (ws.reverse ++ removeAll fs c) c).lookup p
          = (ws.reverse ++ removeAll fs c).lookup p :=
        lookup_filter (fun q => !isUnder c q) p _ hs
      rw [h1, List.lookup_append, hws]
      rfl

theorem sourceDir_eq (root name : Bytes) (full : Bytes)
    (h : full = str "/agentrules/" ++ name) :
    root ++ full = root ++ str "/agentrules/" ++ name := by
  rw [h, List.append_assoc]

theorem not_isSource_dst (root c : Bytes) (hc : 2 ≤ c.length)
    (hne : (str "/agentrules/").take 2 ≠ c.take 2) : isSource root (root ++ c) = false := by
  have h := not_isSource_append root c [] hc hne
  rwa [List.append_nil] at h

/-- When the root is found and `.cursor/rules` can be created and removed, two
runs of `generateRules` from states with the same files below `agentrules`
fail or succeed together, and each ends in the state obtained by removing
`.cursor/rules` and performing the same writes, none below `agentrules`. -/
theorem generateRules_runs (host : Host) (root : Bytes)
    (hroot : host.findGitRoot = some root)
    (hm : host.mkdirAll (root ++ str "/.cursor/rules") = true)
    (hrm : host.removeAll (root ++ str "/.cursor/rules") = true)
    (fs fs' : FileSystem) (h : srcPart root fs = srcPart root fs') :
    (generateRules host fs).2 = (generateRules host fs').2 ∧
    ∃ ws, (∀ w ∈ ws, isSource root w.1 = false) ∧
      (generateRules host fs).1
        = applyWrites (removeAll fs (root ++ str "/.cursor/rules")) ws ∧
      (generateRules host fs').1
        = applyWrites (removeAll fs' (root ++ str "/.cursor/rules")) ws := by
  unfold generateRules
  simp only [hroot, hm, hrm, Bool.true_eq_false, if_false]
  apply runSteps_rel host root
  · intro step hs a b hab
    simp only [List.mem_cons, List.mem_singleton, List.not_mem_nil, or_false] at hs
    rcases hs with hs | hs | hs | hs | hs | hs <;> subst hs
    · show generateCursorRules _ _ _ = generateCursorRules _ _ _
      rw [sourceDir_eq root (str "shared") (str "/agentrules/shared") (by decide)]
      exact cursorStep_srcOnly host root _ _ a b hab
    · show generateCursorRules _ _ _ = generateCursorRules _ _ _
      rw [sourceDir_eq root (str "cursor") (str "/agentrules/cursor") (by decide)]
      exact cursorStep_srcOnly host root _ _ a b hab
    · show generateWindsurfRules _ _ _ = generateWindsurfRules _ _ _
      rw [generateWindsurfRules_routine, generateWindsurfRules_routine,
        sourceDir_eq root (str "shared") (str "/agentrules/shared") (by decide), sourceDir_eq root (str "windsurf") (str "/agentrules/windsurf") (by decide)]
      exact concatStep_srcOnly _ _ host root _ _ _ a b hab
    · show generateClaudeRules _ _ _ = generateClaudeRules _ _ _
      rw [generateClaudeRules_routine, generateClaudeRules_routine,
        sourceDir_eq root (str "shared") (str "/agentrules/shared") (by decide), sourceDir_eq root (str "claude-code") (str "/agentrules/claude-code") (by decide)]
      exact concatStep_srcOnly _ _ host root _ _ _ a b hab
    · show generateAgentRules _ _ _ = generateAgentRules _ _ _
      rw [generateAgentRules_routine, generateAgentRules_routine,
        sourceDir_eq root (str "shared") (str "/agentrules/shared") (by decide), sourceDir_eq root (str "chatgpt-codex") (str "/agentrules/chatgpt-codex") (by decide)]
      exact concatStep_srcOnly _ _ host root _ _ _ a b hab
    · rfl
  · intro step hs a w hw
    simp only [List.mem_cons, List.mem_singleton, List.not_mem_nil, or_false] at hs
    rcases hs with hs | hs | hs | hs | hs | hs <;> subst hs
    · exact cursorStep_writes host root _ a w hw
    · exact cursorStep_writes host root _ a w hw
    · have hw2 : w ∈ (generateWindsurfRules (envOf host a) _ _).written := hw
      rw [generateWindsurfRules_routine] at hw2
      rw [concatenationRoutine_writes _ _ _ _ _ w hw2]
      exact not_isSource_dst root _ (by decide) (by decide)
    · have hw2 : w ∈ (generateClaudeRules (envOf host a) _ _).written := hw
      rw [generateClaudeRules_routine] at hw2
      rw [concatenationRoutine_writes _ _ _ _ _ w hw2]
      exact not_isSource_dst root _ (by decide) (by decide)
    · have hw2 : w ∈ (generateAgentRules (envOf host a) _ _).written := hw
      rw [generateAgentRules_routine] at hw2
      rw [concatenationRoutine_writes _ _ _ _ _ w hw2]
      exact not_isSource_dst root _ (by decide) (by decide)
    · have hw2 : w ∈ (addWarningFiles (envOf host a) (root ++ str "/.cursor/rules")
          (root ++ str "/CLAUDE.md")).written := hw
      unfold addWarningFiles at hw2
      split at hw2
      · simp only [List.mem_singleton] at hw2
        rw [hw2]
        show isSource root (root ++ str "/.cursor/rules" ++ str "/" ++ str "README.md") = false
        rw [List.append_assoc, List.append_assoc]
        exact not_isSource_append root _ _ (by decide) (by decide)
      · simp at hw2
  · rw [srcPart_removeAll, srcPart_removeAll, h]

/-! ## C13: running twice -/

/-- C13: with the file system a map from paths to contents, for every state in
which `generateRules` returns no error, running `generateRules` again on the
state it left returns no error and leaves the same content (or absence of a
file) at every path, the destinations `.cursor/rules/*`, `.windsurfrules`,
`CLAUDE.md` and `AGENTS.md` among them. -/
theorem C13_second_run_changes_nothing (host : Host) (fs : FileSystem)
    (h : (generateRules host fs).2 = false) :
    (generateRules host (generateRules host fs).1).2 = false ∧
    ∀ p, (generateRules host (generateRules host fs).1).1.lookup p
      = (generateRules host fs).1.lookup p := by
  cases hroot : host.findGitRoot with
  | none => simp [generateRules, hroot] at h
  | some root =>
    cases hm : host.mkdirAll (root ++ str "/.cursor/rules") with
    | false => simp [generateRules, hroot, hm] at h
    | true =>
      cases hrm : host.removeAll (root ++ str "/.cursor/rules") with
      | false => simp [generateRules, hroot, hm, hrm] at h
      | true =>
        obtain ⟨_, ws0, hws0, hs0, _⟩ := generateRules_runs host root hroot hm hrm fs fs rfl
        have hsp : srcPart root fs = srcPart root (generateRules host fs).1 := by
          rw [hs0, srcPart_applyWrites root _ _ hws0, srcPart_removeAll]
        obtain ⟨hflag, ws, _, ha, hb⟩ :=
          generateRules_runs host root hroot hm hrm fs (generateRules host fs).1 hsp
        refine ⟨by rw [← hflag, h], fun p => ?_⟩
        rw [hb]
        conv_lhs => rw [ha]
        conv_rhs => rw [ha]
        exact lookup_rerun fs _ p ws

set_option maxRecDepth 100000 in
/-- C13 at a concrete input: the first run on `smallRepo` succeeds and writes
`CLAUDE.md`; the second run succeeds and changes no file. -/
theorem C13_witness :
    (generateRules plainHost smallRepo).2 = false ∧
    (generateRules plainHost smallRepo).1.lookup (str "/r/CLAUDE.md")
      = some (claudeBanner ++ str "Body tool.\n" ++ str "\n---\n\n"
          ++ str "\nBody shared.\n" ++ str "\n---\n\n") ∧
    (generateRules plainHost smallRepo).1.lookup (str "/r/.cursor/rules/old.gen.mdc") = none ∧
    ((generateRules plainHost (generateRules plainHost smallRepo).1).2 = false ∧
      ∀ p, (generateRules plainHost (generateRules plainHost smallRepo).1).1.lookup p
        = (generateRules plainHost smallRepo).1.lookup p) :=
  ⟨by decide, by decide, by decide,
   C13_second_run_changes_nothing plainHost smallRepo (by decide)⟩

/-! ## Documents with and without over-long lines -/

/-- A first line of `maxScanTokenSize` bytes `a` is a raw line of its own. -/
theorem splitLines_long_first (rest : Bytes) :
    splitLines (List.replicate maxScanTokenSize 97 ++ 10 :: rest)
      = List.replicate maxScanTokenSize 97 :: splitLines rest :=
  splitLines_append_newline _ _ (fun h => absurd (List.eq_of_mem_replicate h) (by decide))

/-- On a raw line of `maxScanTokenSize` bytes the call of `Scan` fails. -/
theorem scanEvents_long_first (ls : List Bytes) :
    ∃ c, scanEvents (List.replicate maxScanTokenSize 97 :: ls) = [none, some c] := by
  have h : ¬ (List.replicate maxScanTokenSize 97).length < maxScanTokenSize := by
    rw [List.length_replicate]
    exact Nat.lt_irrefl _
  exact ⟨_, by rw [scanEvents, if_neg h]⟩

theorem scanLines_of_short (data : Bytes)
    (h : ∀ l ∈ splitLines data, l.length < maxScanTokenSize) :
    scanLines data = (splitLines data).map dropCR := by
  unfold scanLines
  rw [scanFile, scanEvents_of_short _ h]
  generalize (splitLines data).map dropCR = xs
  induction xs with
  | nil => rfl
  | cons x xs ih => simp [List.takeWhile_cons, ih]

/-- The line without its trailing `'\r'` is a prefix of the line. -/
theorem dropCR_prefix (l : Bytes) : ∃ t, l = dropCR l ++ t := by
  unfold dropCR
  split
  · next h =>
    obtain ⟨ys, hys⟩ := List.getLast?_eq_some_iff.1 h
    exact ⟨[13], by rw [hys]; simp⟩
  · exact ⟨[], by simp⟩

/-- Dropping the trailing `'\r'` keeps a leading `# `. -/
theorem hasPrefix_dropCR_heading (h : Bytes) (hh : hasPrefix h (str "# ") = true) :
    hasPrefix (dropCR h) (str "# ") = true := by
  obtain ⟨t, ht⟩ := (hasPrefix_iff _ _).1 hh
  unfold dropCR
  split
  · next hl =>
    obtain ⟨ys, hys⟩ := List.getLast?_eq_some_iff.1 hl
    rw [hys, List.dropLast_concat]
    rw [hys] at ht
    cases t with
    | nil =>
      have h2 := congrArg List.getLast? ht
      simp [str] at h2
    | cons x t =>
      have h3 : ys ++ [13] = str "# " ++ ((x :: t).dropLast ++ [(x :: t).getLast (by simp)]) := by
        rw [List.dropLast_append_getLast]
        exact ht
      rw [← List.append_assoc] at h3
      have h4 := List.append_inj_left' h3 rfl
      rw [h4]
      exact hasPrefix_append _ _
  · exact hh

/-- The text of one file stands in what a concatenation generator writes, and
so does every part of it. -/
theorem written_infix (banner sep : Bytes) (loop : Mode → List (Option Bytes) → Bytes)
    (env : Env) (order : List Bytes) (file data x a b : Bytes) (hf : file ∈ order)
    (hr : env.readFile file = some data) (hloop : loop .first (scanFile data) = a ++ x ++ b) :
    ∃ p q, ensureTrailingNewline (concatText banner sep loop env order) = p ++ x ++ q := by
  obtain ⟨pre, post, h⟩ := concatText_mem banner sep loop env order file data hf hr
  rw [hloop] at h
  exact ensureTrailingNewline_infix _ (pre ++ a) x (b ++ post) (by rw [h]; simp)

/-! ## C4: the leading heading -/

/-- C4 (as stated, fails): the document `headingLongDoc` has the heading `# T`
as its first line and two later lines, and each concatenation generator emits
nothing for it: the second line fills the scanner's buffer, `Scan` fails, and
the line `Body` is never read. -/
theorem C4_counterexample :
    splitLines headingLongDoc
      = [str "# T", List.replicate maxScanTokenSize 97, str "Body"] ∧
    hasPrefix (str "# T") (str "# ") = true ∧
    windsurfLoop .first (scanFile headingLongDoc) = [] ∧
    claudeLoop .first (scanFile headingLongDoc) = [] ∧
    agentLoop .first (scanFile headingLongDoc) = [] := by
  have h1 : splitLines headingLongDoc
      = [str "# T", List.replicate maxScanTokenSize 97, str "Body"] := by
    have h2 : headingLongDoc
        = str "# T" ++ 10 :: (List.replicate maxScanTokenSize 97 ++ 10 :: str "Body\n") := rfl
    have h3 : splitLines (str "Body\n") = [str "Body"] := by decide
    rw [h2, splitLines_append_newline _ _ (by decide), splitLines_long_first, h3]
  have hw : windsurfLoop .first (scanFile headingLongDoc) = [] := by
    obtain ⟨c, hc⟩ := scanEvents_long_first [str "Body"]
    have h4 : (str "# T").length < maxScanTokenSize := by decide
    rw [scanFile, h1, scanEvents, if_pos h4, hc, windsurfLoop_first_some,
      if_pos (by decide)]
    rfl
  exact ⟨h1, by decide, hw, by rw [claudeLoop_eq_windsurfLoop, hw],
    by rw [agentLoop_eq_windsurfLoop, hw]⟩

/-- C4 (amended): for every document whose lines are all shorter than the
scanner's token limit and whose first line starts with `# `, the text each
concatenation generator emits for the document is every later line, as the
scanner delivers it (without one trailing `'\r'`) and followed by `'\n'`: the
first line and only the first line is omitted, whatever the later lines start
with. -/
theorem C4_heading_dropped_when_lines_short (data h : Bytes) (rest : List Bytes)
    (hsplit : splitLines data = h :: rest)
    (hshort : ∀ l ∈ splitLines data, l.length < maxScanTokenSize)
    (hh : hasPrefix h (str "# ") = true) :
    windsurfLoop .first (scanFile data) = emitLines (rest.map dropCR) ∧
    claudeLoop .first (scanFile data) = emitLines (rest.map dropCR) ∧
    agentLoop .first (scanFile data) = emitLines (rest.map dropCR) := by
  have hw : windsurfLoop .first (scanFile data) = emitLines (rest.map dropCR) := by
    have h1 := windsurfLoop_body (rest.map dropCR) [] (Or.inl rfl)
    rw [List.append_nil] at h1
    rw [scanFile, scanEvents_of_short _ hshort, hsplit, List.map_cons, List.map_cons,
      windsurfLoop_first_some, if_pos (hasPrefix_dropCR_heading h hh), h1]
  exact ⟨hw, by rw [claudeLoop_eq_windsurfLoop, hw], by rw [agentLoop_eq_windsurfLoop, hw]⟩

/-- C4 (amended) at a concrete input: the heading is dropped, the later line
that starts with `# ` is kept. -/
theorem C4_witness :
    emitLines ([str "Intro", str "# Second"].map dropCR) = str "Intro\n# Second\n" ∧
    (windsurfLoop .first (scanFile (str "# Title\nIntro\n# Second\n"))
        = emitLines ([str "Intro", str "# Second"].map dropCR) ∧
      claudeLoop .first (scanFile (str "# Title\nIntro\n# Second\n"))
        = emitLines ([str "Intro", str "# Second"].map dropCR) ∧
      agentLoop .first (scanFile (str "# Title\nIntro\n# Second\n"))
        = emitLines ([str "Intro", str "# Second"].map dropCR)) :=
  ⟨by decide,
   C4_heading_dropped_when_lines_short (str "# Title\nIntro\n# Second\n") (str "# Title")
     [str "Intro", str "# Second"] (by decide) (by decide) (by decide)⟩

/-! ## C10: malformed sentinel comments -/

/-- C10 (as stated, fails): after a first line `----`, which is no YAML block
in the words of the specification, a malformed sentinel is skipped with the
rest of the document; after a line that fills the scanner's buffer it is never
read; and a malformed sentinel that ends with `'\r'` is written without the
`'\r'`. -/
theorem C10_counterexample :
    (beginsWithYamlBlock (str "----\n<!-- @agentrules: broken\nBody\n") = false ∧
      isMalformedSentinel (str "<!-- @agentrules: broken") = true ∧
      windsurfLoop .first (scanFile (str "----\n<!-- @agentrules: broken\nBody\n")) = [] ∧
      claudeLoop .first (scanFile (str "----\n<!-- @agentrules: broken\nBody\n")) = [] ∧
      agentLoop .first (scanFile (str "----\n<!-- @agentrules: broken\nBody\n")) = []) ∧
    (splitLines longSentinelDoc
        = [List.replicate maxScanTokenSize 97, str "<!-- @agentrules: broken"] ∧
      windsurfLoop .first (scanFile longSentinelDoc) = [] ∧
      claudeLoop .first (scanFile longSentinelDoc) = [] ∧
      agentLoop .first (scanFile longSentinelDoc) = []) ∧
    (splitLines (str "<!-- @agentrules: broken\r\n") = [str "<!-- @agentrules: broken\r"] ∧
      isMalformedSentinel (str "<!-- @agentrules: broken\r") = true ∧
      claudeLoop .first (scanFile (str "<!-- @agentrules: broken\r\n"))
        = str "<!-- @agentrules: broken\n" ∧
      (generateClaudeRules (oneFileEnv (str "<!-- @agentrules: broken\r\n")) [str "src"]
          (str "out")).written.map
          (fun pc => containsBytes pc.2 (str "<!-- @agentrules: broken\r")) = [false]) := by
  refine ⟨by decide, ?_, by decide⟩
  have h1 : splitLines longSentinelDoc
      = [List.replicate maxScanTokenSize 97, str "<!-- @agentrules: broken"] := by
    have h2 : longSentinelDoc
        = List.replicate maxScanTokenSize 97 ++ 10 :: str "<!-- @agentrules: broken\n" := rfl
    have h3 : splitLines (str "<!-- @agentrules: broken\n")
        = [str "<!-- @agentrules: broken"] := by decide
    rw [h2, splitLines_long_first, h3]
  have hw : windsurfLoop .first (scanFile longSentinelDoc) = [] := by
    obtain ⟨c, hc⟩ := scanEvents_long_first [str "<!-- @agentrules: broken"]
    rw [scanFile, h1, hc]
    rfl
  exact ⟨h1, hw, by rw [claudeLoop_eq_windsurfLoop, hw], by rw [agentLoop_eq_windsurfLoop, hw]⟩

/-- C10 (amended): for every document whose lines are all shorter than the
scanner's token limit, a malformed sentinel line that lies after the block the
generator skips as leading YAML (a first line that starts with `---` through
the next line that starts with `---`) is emitted by each concatenation
generator byte for byte, apart from one trailing `'\r'`, and followed by
`'\n'`; and every generator that collects the document and can open it writes
that text into its output. -/
theorem C10_malformed_sentinel_emitted (data : Bytes) (pre post : List Bytes) (l : Bytes)
    (hsplit : splitLines data = pre ++ l :: post)
    (hshort : ∀ x ∈ splitLines data, x.length < maxScanTokenSize)
    (hm : isMalformedSentinel l = true)
    (hy : yamlBlockLength ((splitLines data).map dropCR) ≤ pre.length) :
    (∃ a b,
      windsurfLoop .first (scanFile data) = a ++ (dropCR l ++ str "\n") ++ b ∧
      claudeLoop .first (scanFile data) = a ++ (dropCR l ++ str "\n") ++ b ∧
      agentLoop .first (scanFile data) = a ++ (dropCR l ++ str "\n") ++ b) ∧
    ∀ (env : Env) (srcDirs : List Bytes) (dst : Bytes) (lists : List (List Bytes))
      (file : Bytes),
      List.Forall₂ (fun d ls => env.glob d = some ls) srcDirs lists →
      env.writeFile dst = true → file ∈ lists.flatten → env.readFile file = some data →
      (∃ p q, (generateWindsurfRules env srcDirs dst).written
        = [(dst, p ++ (dropCR l ++ str "\n") ++ q)]) ∧
      (∃ p q, (generateClaudeRules env srcDirs dst).written
        = [(dst, p ++ (dropCR l ++ str "\n") ++ q)]) ∧
      (∃ p q, (generateAgentRules env srcDirs dst).written
        = [(dst, p ++ (dropCR l ++ str "\n") ++ q)]) := by
  have hnh : hasPrefix (dropCR l) (str "# ") = false := by
    cases hp : hasPrefix (dropCR l) (str "# ") with
    | false => rfl
    | true =>
      obtain ⟨t, ht⟩ := dropCR_prefix l
      have h2 := hasPrefix_append_right (dropCR l) t _ hp
      rw [← ht, not_heading_of_malformed l hm] at h2
      cases h2
  have hsl : scanLines data = pre.map dropCR ++ dropCR l :: post.map dropCR := by
    rw [scanLines_of_short data hshort, hsplit, List.map_append, List.map_cons]
  have hy2 : yamlBlockLength (scanLines data) ≤ (pre.map dropCR).length := by
    rw [scanLines_of_short data hshort, List.length_map]
    exact hy
  obtain ⟨a, b, hw⟩ := line_after_block_emitted data _ _ _ hsl hnh hy2
  have hc : claudeLoop .first (scanFile data) = a ++ (dropCR l ++ str "\n") ++ b := by
    rw [claudeLoop_eq_windsurfLoop, hw]
  have ha : agentLoop .first (scanFile data) = a ++ (dropCR l ++ str "\n") ++ b := by
    rw [agentLoop_eq_windsurfLoop, hw]
  refine ⟨⟨a, b, hw, hc, ha⟩, ?_⟩
  intro env srcDirs dst lists file hglob hwr hfile hread
  have hf := (mem_sortStrings lists.flatten file).2 hfile
  refine ⟨?_, ?_, ?_⟩
  · obtain ⟨p, q, h⟩ := written_infix windsurfBanner (str "\n---\n\n") windsurfLoop env _ file
      data _ a b hf hread hw
    exact ⟨p, q, by rw [generateWindsurfRules_eq env srcDirs dst lists hglob hwr, h]⟩
  · obtain ⟨p, q, h⟩ := written_infix claudeBanner (str "\n---\n\n") claudeLoop env _ file
      data _ a b hf hread hc
    exact ⟨p, q, by rw [generateClaudeRules_eq env srcDirs dst lists hglob hwr, h]⟩
  · obtain ⟨p, q, h⟩ := written_infix agentBanner (str "\n") agentLoop env _ file
      data _ a b hf hread ha
    exact ⟨p, q, by rw [generateAgentRules_eq env srcDirs dst lists hglob hwr, h]⟩

/-- C10 (amended) at a concrete input: a malformed sentinel after a YAML
block. -/
theorem C10_witness :
    claudeLoop .first (scanFile (str "---\nk: v\n---\n<!-- @agentrules: broken\nBody\n"))
      = str "<!-- @agentrules: broken\nBody\n" ∧
    dropCR (str "<!-- @agentrules: broken") = str "<!-- @agentrules: broken" ∧
    ∃ a b,
      windsurfLoop .first (scanFile (str "---\nk: v\n---\n<!-- @agentrules: broken\nBody\n"))
        = a ++ (dropCR (str "<!-- @agentrules: broken") ++ str "\n") ++ b ∧
      claudeLoop .first (scanFile (str "---\nk: v\n---\n<!-- @agentrules: broken\nBody\n"))
        = a ++ (dropCR (str "<!-- @agentrules: broken") ++ str "\n") ++ b ∧
      agentLoop .first (scanFile (str "---\nk: v\n---\n<!-- @agentrules: broken\nBody\n"))
        = a ++ (dropCR (str "<!-- @agentrules: broken") ++ str "\n") ++ b :=
  ⟨by decide, by decide,
   (C10_malformed_sentinel_emitted (str "---\nk: v\n---\n<!-- @agentrules: broken\nBody\n")
     [str "---", str "k: v", str "---"] [str "Body"] (str "<!-- @agentrules: broken")
     (by decide) (by decide) (by decide) (by decide)).1⟩

end AgentRules
